import Mathlib

set_option maxRecDepth 20000

/-!
HT1621 segment LCD driver: frame encoder and glyph translator.

A shallow embedding of `src/HT1621.cpp`.

* Bytes (`uint8_t`, `char`) are natural numbers, reduced modulo `2^8` wherever the
  C++ code truncates.
* The injected callbacks (`pCsPin`, `pSckPin`, `pMosiPin`, `pBacklightPin`,
  `pSpiInterface`) are modelled by a flag saying whether the pointer is non-null, and
  every call through one of them appends an `Event` to the trace of the driver state.
* Reads outside an array and conversions whose result C++ leaves undefined make the
  embedded function return `none`; `strToAsciiAt`, `print_str_at` and `print_float_at`
  are the same functions with the undefined value as an explicit parameter.
* The conversion `%li` reads a `long` of `LONG_BITS` bits, while `print(int32_t)` passes
  an `int32_t`.
-/

/-! ## Constants of the source -/

def MAX_NUM : Int := 999999
def MIN_NUM : Int := -99999

def MAX_POSITIVE_PRECISION : Nat := 3
def MAX_NEGATIVE_PRECISION : Nat := 2

def BITS_PER_BYTE : Nat := 8

def BIAS : Nat := 0x52
def SYSDIS : Nat := 0x00
def SYSEN : Nat := 0x02
def LCDOFF : Nat := 0x04
def LCDON : Nat := 0x06
def XTAL : Nat := 0x28
def RC256 : Nat := 0x30
def TONEON : Nat := 0x12
def TONEOFF : Nat := 0x10
def WDTDIS1 : Nat := 0x0A

def MODE_CMD : Nat := 0x08
def MODE_DATA : Nat := 0x05

def BATTERY_SEG : Nat := 0x80
def DOT_SEG : Nat := 0x80

/-- Modelled from the spec: the header `HT1621.hpp` is not among the sources. The
display has six character positions (the code indexes `buffer[0..5]` and formats
with `%6li`). -/
def DISPLAY_SIZE : Nat := 6

/-- Modelled from the spec: the pin levels `LOW` and `HIGH` of the absent header. -/
def LOW : Bool := false

/-- Modelled from the spec: see `LOW`. -/
def HIGH : Bool := true

/-- The glyph table `ascii[]`, 64 entries for the characters `' '` .. `'_'`. -/
def ascii : List Nat :=
  [ 0x00, 0x00, 0x00, 0x00, 0x00, 0x00, 0x00, 0x00, 0x00, 0x00, 0x00, 0x00, 0x00, 0x02, 0x00, 0x00,
    0x7D, 0x60, 0x3e, 0x7a, 0x63, 0x5b, 0x5f, 0x70, 0x7f, 0x7b, 0x00, 0x00, 0x00, 0x00, 0x00, 0x00,
    0x00, 0x77, 0x4f, 0x1d, 0x6e, 0x1f, 0x17, 0x5d, 0x47, 0x05, 0x68, 0x27, 0x0d, 0x54, 0x75, 0x4e,
    0x37, 0x73, 0x06, 0x59, 0x0f, 0x6d, 0x23, 0x29, 0x67, 0x6b, 0x3c, 0x00, 0x00, 0x00, 0x00, 0x00 ]

/-! ## Bit-field unions (`LITTLE_ENDIAN` branch) -/

/-- Value of a run of bit-fields listed from the least significant one, each given as
`(width, value)`; a value wider than its field is truncated, as a C++ bit-field
assignment does. -/
def packFields : List (Nat × Nat) → Nat
  | [] => 0
  | (w, v) :: rest => v % 2 ^ w + 2 ^ w * packFields rest

/-- The `n` bytes of `v` in memory order on a little-endian machine. -/
def leBytes : Nat → Nat → List Nat
  | 0, _ => []
  | n + 1, v => v % 256 :: leBytes n (v / 256)

/-- `union tCmdSeq`: the bit-fields of the packed struct. -/
structure tCmdSeq where
  padding : Nat := 0
  data : Nat := 0
  type : Nat := 0
  deriving DecidableEq, Repr

/-- The `arr` member of `union tCmdSeq`: the two bytes that overlay the bit-fields
`padding : 4`, `data : 8`, `type : 4`, allocated from the least significant bit. -/
def tCmdSeq.arr (q : tCmdSeq) : List Nat :=
  leBytes 2 (packFields [(4, q.padding), (8, q.data), (4, q.type)])

/-- `union tDataSeq`: the bit-fields of the packed struct. -/
structure tDataSeq where
  padding : Nat := 0
  data2 : Nat := 0
  data1 : Nat := 0
  data0 : Nat := 0
  addr : Nat := 0
  type : Nat := 0
  deriving DecidableEq, Repr

/-- The `arr` member of `union tDataSeq`: the eight bytes that overlay the bit-fields
`padding : 7`, `data2 : 16`, `data1 : 16`, `data0 : 16`, `addr : 6`, `type : 3`. -/
def tDataSeq.arr (q : tDataSeq) : List Nat :=
  leBytes 8 (packFields [(7, q.padding), (16, q.data2), (16, q.data1), (16, q.data0),
    (6, q.addr), (3, q.type)])

/-! ## Driver state and transport -/

/-- One call through an injected callback. -/
inductive Event where
  | cs (level : Bool)
  | sck (level : Bool)
  | mosi (level : Bool)
  | backlight (level : Bool)
  | spi (bytes : List Nat)
  deriving DecidableEq, Repr

/-- The driver instance: which callbacks are non-null, the display buffer, and the
calls made through the callbacks so far. The members are declared in the header
`HT1621.hpp`, which is not among the sources; the buffer holds `DISPLAY_SIZE` bytes,
each read as an unsigned value `0..255`. -/
structure HT1621 where
  pCsPin : Bool
  pSckPin : Bool
  pMosiPin : Bool
  pBacklightPin : Bool
  pSpiInterface : Bool
  buffer : List Nat
  trace : List Event
  deriving DecidableEq, Repr

namespace HT1621

/-- Append callback calls to the trace. -/
def emit (s : HT1621) (es : List Event) : HT1621 :=
  { s with trace := s.trace ++ es }

/-- Inner loop of `wrBytes`: `n` iterations of clock low, data line, clock high,
shifting the `uint8_t` left by one each time. -/
def bitLoop : Nat → Nat → List Event
  | 0, _ => []
  | n + 1, byte =>
    [Event.sck LOW, Event.mosi (if byte &&& 0x80 ≠ 0 then HIGH else LOW), Event.sck HIGH]
      ++ bitLoop n ((byte <<< 1) % 256)

/-- Outer loop of `wrBytes` over `ptr[0 .. size-1]`. -/
def byteLoop : List Nat → List Event
  | [] => []
  | byte :: rest => bitLoop BITS_PER_BYTE byte ++ byteLoop rest

/-- `HT1621::wrBytes(ptr, size)`; the list is the region `ptr[0 .. size-1]`. -/
def wrBytes (s : HT1621) (ptr : List Nat) : HT1621 :=
  let ptr := ptr.reverse
  let s := if s.pCsPin then s.emit [Event.cs LOW] else s
  let s :=
    if s.pSpiInterface then s.emit [Event.spi ptr]
    else if s.pSckPin && s.pMosiPin then s.emit (byteLoop ptr)
    else s
  if s.pCsPin then s.emit [Event.cs HIGH] else s

/-- `HT1621::wrCmd(cmd)`. -/
def wrCmd (s : HT1621) (cmd : Nat) : HT1621 :=
  let CommandSeq : tCmdSeq := {}
  let CommandSeq := { CommandSeq with type := MODE_CMD }
  let CommandSeq := { CommandSeq with data := cmd }
  s.wrBytes CommandSeq.arr

/-- Read `buffer[i]`. -/
def buf (s : HT1621) (i : Nat) : Nat := s.buffer.getD i 0

/-- `HT1621::wrBuffer()`. -/
def wrBuffer (s : HT1621) : HT1621 :=
  let dataSeq : tDataSeq := {}
  let dataSeq := { dataSeq with type := MODE_DATA }
  let dataSeq := { dataSeq with addr := 0 }
  let dataSeq := { dataSeq with data0 := (s.buf 5 <<< 8) + s.buf 4 }
  let dataSeq := { dataSeq with data1 := (s.buf 3 <<< 8) + s.buf 2 }
  let dataSeq := { dataSeq with data2 := (s.buf 1 <<< 8) + s.buf 0 }
  s.wrBytes dataSeq.arr

/-- The six start-up commands both constructors issue. -/
def init (s : HT1621) : HT1621 :=
  (((((s.wrCmd BIAS).wrCmd RC256).wrCmd SYSDIS).wrCmd WDTDIS1).wrCmd SYSEN).wrCmd LCDON

/-- `HT1621::HT1621(pCs, pSck, pMosi, pBacklight)`: the bit-banged constructor. The
members it does not assign keep the initial value of the (absent) header: a null
`pSpiInterface` and a zeroed buffer, as the spec states. -/
def mkPins (pCs pSck pMosi pBacklight : Bool) : HT1621 :=
  init { pCsPin := pCs, pSckPin := pSck, pMosiPin := pMosi, pBacklightPin := pBacklight,
         pSpiInterface := false, buffer := List.replicate DISPLAY_SIZE 0, trace := [] }

/-- `HT1621::HT1621(pSpi, pCs, pBacklight)`: the bulk-transfer constructor; `pSckPin`
and `pMosiPin` keep their null initial value. -/
def mkSpi (pSpi pCs pBacklight : Bool) : HT1621 :=
  init { pCsPin := pCs, pSckPin := false, pMosiPin := false, pBacklightPin := pBacklight,
         pSpiInterface := pSpi, buffer := List.replicate DISPLAY_SIZE 0, trace := [] }

/-- `HT1621::displayOn()`. -/
def displayOn (s : HT1621) : HT1621 := s.wrCmd LCDON

/-- `HT1621::displayOff()`. -/
def displayOff (s : HT1621) : HT1621 := s.wrCmd LCDOFF

/-- `HT1621::backlightOn()`. -/
def backlightOn (s : HT1621) : HT1621 :=
  if s.pBacklightPin then s.emit [Event.backlight HIGH] else s

/-- `HT1621::backlightOff()`. -/
def backlightOff (s : HT1621) : HT1621 :=
  if s.pBacklightPin then s.emit [Event.backlight LOW] else s

/-- Store into `buffer[i]`. -/
def setBuf (s : HT1621) (i v : Nat) : HT1621 :=
  { s with buffer := s.buffer.set i v }

/-- A counted `for (int i = start; i < start + n; i++)` loop whose body may fail. -/
def forLoop (body : Nat → HT1621 → Option HT1621) : Nat → Nat → HT1621 → Option HT1621
  | 0, _, s => some s
  | n + 1, i, s => (body i s).bind (forLoop body n (i + 1))

/-- `HT1621::batteryBufferClear()`; `x &= ~0x80` keeps the low seven bits of a byte. -/
def batteryBufferClear (s : HT1621) : HT1621 :=
  let s := s.setBuf 0 (s.buf 0 &&& (0xFF ^^^ BATTERY_SEG))
  let s := s.setBuf 1 (s.buf 1 &&& (0xFF ^^^ BATTERY_SEG))
  s.setBuf 2 (s.buf 2 &&& (0xFF ^^^ BATTERY_SEG))

/-- `HT1621::dotsBufferClear()`. -/
def dotsBufferClear (s : HT1621) : HT1621 :=
  let s := s.setBuf 3 (s.buf 3 &&& (0xFF ^^^ DOT_SEG))
  let s := s.setBuf 4 (s.buf 4 &&& (0xFF ^^^ DOT_SEG))
  s.setBuf 5 (s.buf 5 &&& (0xFF ^^^ DOT_SEG))

/-- Body of the loop of `lettersBufferClear`. -/
def lettersBufferClearBody (i : Nat) (s : HT1621) : Option HT1621 :=
  some (s.setBuf i (s.buf i &&& (BATTERY_SEG ||| DOT_SEG)))

/-- `HT1621::lettersBufferClear()`. -/
def lettersBufferClear (s : HT1621) : HT1621 :=
  (forLoop lettersBufferClearBody DISPLAY_SIZE 0 s).getD s

end HT1621

/-- Modelled from the spec: `enum tBatteryLevel` of the absent header. -/
inductive tBatteryLevel where
  | BATTERY_NONE
  | BATTERY_LOW
  | BATTERY_MEDIUM
  | BATTERY_FULL
  deriving DecidableEq, Repr

namespace HT1621

/-- `HT1621::batteryLevel(level)`; the cases fall through from `BATTERY_FULL` down to
`BATTERY_LOW`. -/
def batteryLevel (s : HT1621) (level : tBatteryLevel) : HT1621 :=
  let s := s.batteryBufferClear
  let s := if level = .BATTERY_FULL then s.setBuf 0 (s.buf 0 ||| BATTERY_SEG) else s
  let s := if level = .BATTERY_FULL ∨ level = .BATTERY_MEDIUM then
    s.setBuf 1 (s.buf 1 ||| BATTERY_SEG) else s
  let s := if level = .BATTERY_FULL ∨ level = .BATTERY_MEDIUM ∨ level = .BATTERY_LOW then
    s.setBuf 2 (s.buf 2 ||| BATTERY_SEG) else s
  s.wrBuffer

/-- `HT1621::clear()`. -/
def clear (s : HT1621) : HT1621 :=
  let s := s.batteryBufferClear
  let s := s.dotsBufferClear
  let s := s.lettersBufferClear
  s.wrBuffer

end HT1621

/-- `strToAscii(c)`: `c` is the value of the `char` (either signedness); `none` when
the function reads outside `ascii[]`. -/
def strToAscii (c : Int) : Option Nat :=
  if c < 32 then ascii[0]?
  else if c - 32 > (ascii.length : Int) then ascii[0]?
  else ascii[(c - 32).toNat]?

/-- `strlen(str)`: the characters before the first NUL. -/
def strlen (str : List Int) : Nat := (str.takeWhile (fun c => c ≠ 0)).length

/-- The decimal digits of `n` as characters, most significant first; `fuel` bounds the
number of digits (a `long` has at most 19). -/
def digitChars : Nat → Nat → List Int
  | 0, _ => []
  | fuel + 1, n =>
    if n < 10 then [48 + (n : Int)] else digitChars fuel (n / 10) ++ [48 + ((n % 10 : Nat) : Int)]

/-- The text `printf("%6li", num)` produces for the `long` value `num`: sign, digits,
padded on the left with spaces to at least six characters. -/
def format6li (num : Int) : List Int :=
  let body := (if num < 0 then [45] else []) ++ digitChars 20 num.natAbs
  List.replicate (6 - body.length) 32 ++ body

/-- Width in bits of the type `long` that the conversion `%li` reads: 64 on an LP64
platform, where `int32_t` is `int`. -/
def LONG_BITS : Nat := 64

/-- The `long` the conversion `%li` reads when the variadic argument passed is the
`int32_t` `num`. Where `long` is wider than 32 bits the 32-bit pattern of `num`
arrives zero-extended, so a negative `num` is read as `num + 2^32`; where `long` has
32 bits the value is `num` itself. -/
def vaLong (num : Int) : Int :=
  if LONG_BITS ≤ 32 then num else num % 4294967296

/-- `snprintf(str, size, "%6li", num)` with `num` of type `int32_t`, into a zeroed
array of `size` chars: the conversion formats the `long` it reads (`vaLong num`), at
most `size - 1` characters of the text are stored, the rest stays NUL. -/
def snprintf6li (size : Nat) (num : Int) : List Int :=
  let text := (format6li (vaLong num)).take (size - 1)
  text ++ List.replicate (size - text.length) 0

namespace HT1621

/-- Body of the loop of `print(const char *)`. -/
def printStrBody (str : List Int) (i : Nat) (s : HT1621) : Option HT1621 :=
  if i < strlen str then
    (strToAscii (str.getD i 0)).map (fun g => s.setBuf i (s.buf i ||| g))
  else
    ascii[0]?.map (fun g => s.setBuf i (s.buf i ||| g))

/-- `HT1621::print(const char *str)`. -/
def print_str (s : HT1621) (str : List Int) : Option HT1621 :=
  let s := s.dotsBufferClear
  let s := s.lettersBufferClear
  (forLoop (printStrBody str) DISPLAY_SIZE 0 s).map wrBuffer

/-- Body of the loop of `print(int32_t)`. -/
def printIntBody (str : List Int) (i : Nat) (s : HT1621) : Option HT1621 :=
  (strToAscii (str.getD i 0)).map (fun g => s.setBuf i (s.buf i ||| g))

/-- `HT1621::print(int32_t num)`. -/
def print_int (s : HT1621) (num : Int) : Option HT1621 :=
  let num := if num > MAX_NUM then MAX_NUM else num
  let num := if num < MIN_NUM then MIN_NUM else num
  let s := s.dotsBufferClear
  let s := s.lettersBufferClear
  let str := snprintf6li (DISPLAY_SIZE + 1) num
  (forLoop (printIntBody str) DISPLAY_SIZE 0 s).map wrBuffer

/-- `HT1621::decimalSeparator(dpPosition)`. -/
def decimalSeparator (s : HT1621) (dpPosition : Nat) : HT1621 :=
  let s := s.dotsBufferClear
  if dpPosition = 0 ∨ dpPosition > 3 then s
  else s.setBuf (DISPLAY_SIZE - dpPosition) (s.buf (DISPLAY_SIZE - dpPosition) ||| DOT_SEG)

end HT1621

/-- A value of type `float`: a finite one is `m * 2^e` (binary32: `|m| < 2^24`). -/
inductive CFloat where
  | finite (m : Int) (e : Int)
  | inf (negative : Bool)
  | nan
  deriving DecidableEq, Repr

namespace CFloat

/-- The comparison `num >= 0`. -/
def geZero : CFloat → Bool
  | finite m _ => decide (0 ≤ m)
  | inf negative => !negative
  | nan => false

/-- The comparison `num < 0`. -/
def ltZero : CFloat → Bool
  | finite m _ => decide (m < 0)
  | inf negative => negative
  | nan => false

/-- The conversion `(int32_t)(num * pow(10, precision))`. For a finite binary32 `num` and
`precision <= 3` the product is exact in `double` (at most 34 significant bits), so
the conversion truncates the exact product toward zero; it is undefined (`none`) when
the truncated value does not fit `int32_t`, and for infinities and NaN. -/
def scaleToInt32 (num : CFloat) (precision : Nat) : Option Int :=
  match num with
  | finite m e =>
    let t := if 0 ≤ e then m * 10 ^ precision * 2 ^ e.toNat
             else Int.tdiv (m * 10 ^ precision) (2 ^ (-e).toNat)
    if -2147483648 ≤ t ∧ t ≤ 2147483647 then some t else none
  | inf _ => none
  | nan => none

end CFloat

namespace HT1621

/-- `HT1621::print(float num, uint8_t precision)`. -/
def print_float (s : HT1621) (num : CFloat) (precision : Nat) : Option HT1621 :=
  let precision :=
    if num.geZero ∧ precision > MAX_POSITIVE_PRECISION then MAX_POSITIVE_PRECISION
    else if num.ltZero ∧ precision > MAX_NEGATIVE_PRECISION then MAX_NEGATIVE_PRECISION
    else precision
  (num.scaleToInt32 precision).bind fun integerated =>
    let integerated := if integerated > MAX_NUM then MAX_NUM else integerated
    let integerated := if integerated < MIN_NUM then MIN_NUM else integerated
    let s := s.lettersBufferClear
    (s.print_int integerated).map fun s =>
      let s := s.decimalSeparator precision
      s.wrBuffer

end HT1621

/-- `strToAscii(c)` with the memory behind the table made explicit: `past` is the byte
stored right after the last entry of `ascii[]`, which the lookup returns when it reads
`ascii[64]`. -/
def strToAsciiAt (past : Nat) (c : Int) : Nat :=
  if c < 32 then ascii.getD 0 past
  else if c - 32 > (ascii.length : Int) then ascii.getD 0 past
  else ascii.getD (c - 32).toNat past

namespace HT1621

/-- Body of the loop of `print(const char *)`, reading the table through
`strToAsciiAt`. -/
def printStrBodyAt (past : Nat) (str : List Int) (i : Nat) (s : HT1621) : Option HT1621 :=
  if i < strlen str then
    some (s.setBuf i (s.buf i ||| strToAsciiAt past (str.getD i 0)))
  else
    some (s.setBuf i (s.buf i ||| ascii.getD 0 past))

/-- `HT1621::print(const char *str)` as executed when the byte behind `ascii[]` is
`past`: the same statements as `print_str`, with every call defined. -/
def print_str_at (past : Nat) (s : HT1621) (str : List Int) : Option HT1621 :=
  let s := s.dotsBufferClear
  let s := s.lettersBufferClear
  (forLoop (printStrBodyAt past str) DISPLAY_SIZE 0 s).map wrBuffer

/-- `HT1621::print(float num, uint8_t precision)` as executed when a conversion to
`int32_t` that C++ leaves undefined yields the value `conv`: the same statements as
`print_float`, with every call defined. -/
def print_float_at (conv : Int) (s : HT1621) (num : CFloat) (precision : Nat) :
    Option HT1621 :=
  let precision :=
    if num.geZero ∧ precision > MAX_POSITIVE_PRECISION then MAX_POSITIVE_PRECISION
    else if num.ltZero ∧ precision > MAX_NEGATIVE_PRECISION then MAX_NEGATIVE_PRECISION
    else precision
  let integerated := (num.scaleToInt32 precision).getD conv
  let integerated := if integerated > MAX_NUM then MAX_NUM else integerated
  let integerated := if integerated < MIN_NUM then MIN_NUM else integerated
  let s := s.lettersBufferClear
  (s.print_int integerated).map fun s =>
    let s := s.decimalSeparator precision
    s.wrBuffer

end HT1621

/-! ## Wire-level vocabulary used by the statements -/

/-- The eight bits of a byte, most significant first. -/
def msbBits (b : Nat) : List Bool :=
  [b.testBit 7, b.testBit 6, b.testBit 5, b.testBit 4,
   b.testBit 3, b.testBit 2, b.testBit 1, b.testBit 0]

/-- One clock cycle per bit: clock low, data line, clock high. -/
def clocked : List Bool → List Event
  | [] => []
  | b :: bs => Event.sck LOW :: Event.mosi b :: Event.sck HIGH :: clocked bs

/-- The chip-select call made when the chip-select callback is present. -/
def csEvents (pCs level : Bool) : List Event :=
  if pCs then [Event.cs level] else []

/-- The levels written to the data line, in order. -/
def mosiLevels : List Event → List Bool
  | [] => []
  | Event.mosi b :: es => b :: mosiLevels es
  | _ :: es => mosiLevels es

/-- The frame of command `c` as the chip reads it: tag `0b1000`, opcode, four zero bits. -/
def cmdFrame (c : Nat) : List Nat := [0x80 ||| (c >>> 4), (c &&& 0x0F) <<< 4]

/-- The value of a byte sequence read most significant byte first. -/
def beValue (bytes : List Nat) : Nat := bytes.foldl (fun acc b => acc * 256 + b) 0

/-- The `n` low bytes of `v`, most significant first. -/
def beBytes : Nat → Nat → List Nat
  | 0, _ => []
  | n + 1, v => (v >>> (8 * n)) % 256 :: beBytes n v

/-- Fields of a received command frame: 4-bit tag, 8-bit opcode, 4 padding bits. -/
def unpackCmd (frame : List Nat) : Nat × Nat × Nat :=
  let v := beValue frame
  (v >>> 12, (v >>> 4) &&& 0xFF, v &&& 0x0F)

/-- The 64-bit value of a data frame: 3-bit tag `0b101`, 6-bit address 0, three words,
seven padding bits. -/
def dataFrameValue (w0 w1 w2 : Nat) : Nat :=
  (0b101 <<< 61) ||| (0 <<< 55) ||| (w0 <<< 39) ||| (w1 <<< 23) ||| (w2 <<< 7)

/-- Fields of a received data frame: tag, address, three 16-bit words, padding. -/
def unpackData (frame : List Nat) : Nat × Nat × Nat × Nat × Nat × Nat :=
  let v := beValue frame
  (v >>> 61, (v >>> 55) &&& 0x3F, (v >>> 39) &&& 0xFFFF, (v >>> 23) &&& 0xFFFF,
   (v >>> 7) &&& 0xFFFF, v &&& 0x7F)

/-- Bytes from bits, eight per byte, most significant first. -/
def packBits : List Bool → List Nat
  | b7 :: b6 :: b5 :: b4 :: b3 :: b2 :: b1 :: b0 :: rest =>
    (b7.toNat * 128 + b6.toNat * 64 + b5.toNat * 32 + b4.toNat * 16
      + b3.toNat * 8 + b2.toNat * 4 + b1.toNat * 2 + b0.toNat) :: packBits rest
  | _ => []

/-- Frames seen by the chip: the bytes transferred between chip-select going low and
going high, whether sent by a bulk transfer or bit by bit on the data line. -/
def framesAux : List Event → List Nat → List Bool → List (List Nat)
  | [], _, _ => []
  | Event.cs false :: es, _, _ => framesAux es [] []
  | Event.cs true :: es, bytes, bits => (bytes ++ packBits bits) :: framesAux es [] []
  | Event.spi payload :: es, bytes, bits => framesAux es (bytes ++ packBits bits ++ payload) []
  | Event.mosi b :: es, bytes, bits => framesAux es bytes (bits ++ [b])
  | _ :: es, bytes, bits => framesAux es bytes bits

/-- Frames of a whole trace. -/
def framesOf (tr : List Event) : List (List Nat) := framesAux tr [] []

/-- The start-up opcodes in the order the constructors send them. -/
def initOpcodes : List Nat := [BIAS, RC256, SYSDIS, WDTDIS1, SYSEN, LCDON]

/-- A driver in bulk-transfer mode with chip select, before any command is sent. -/
def spiDriver : HT1621 :=
  { pCsPin := true, pSckPin := false, pMosiPin := false, pBacklightPin := false,
    pSpiInterface := true, buffer := [0x80, 0x7D, 0x60, 0x3e, 0xfa, 0x63], trace := [] }

/-- A driver in bit-banged mode with chip select, before any command is sent. -/
def pinDriver : HT1621 :=
  { pCsPin := true, pSckPin := true, pMosiPin := true, pBacklightPin := true,
    pSpiInterface := false, buffer := [0x00, 0x00, 0x80, 0x00, 0x00, 0x7D], trace := [] }

/-- The glyph of a character per the glyph table: the entry of `ascii` for `' '..'_'`,
blank for every other character. -/
def glyphOf (c : Int) : Nat :=
  if 0x20 ≤ c ∧ c ≤ 0x5F then ascii.getD (c - 0x20).toNat 0 else 0

/-- The glyph `print(const char *)` puts at position `i`. -/
def strGlyph (str : List Int) (i : Nat) : Nat :=
  if i < strlen str then glyphOf (str.getD i 0) else 0

/-- The character at position `i` of the decimal text of `n` right-aligned in six
columns: a digit in the last `d` columns (`d` the number of digits of `|n|`), a minus
sign just left of them when `n < 0`, a space elsewhere. -/
def intChar (n : Int) (i : Nat) : Int :=
  if 6 ≤ i + (Nat.log 10 n.natAbs + 1) then 48 + ((n.natAbs / 10 ^ (5 - i) % 10 : Nat) : Int)
  else if n < 0 ∧ i + (Nat.log 10 n.natAbs + 1) + 1 = 6 then 45
  else 32

/-- The glyphs of the decimal digits `0`..`9`. -/
def digitGlyph (d : Nat) : Nat :=
  [0x7D, 0x60, 0x3e, 0x7a, 0x63, 0x5b, 0x5f, 0x70, 0x7f, 0x7b].getD d 0

/-- The range `print(int32_t)` clamps its argument into. -/
def clampNum (n : Int) : Int := min (max n (-99999)) 999999

/-- The character `print(int32_t)` reads at position `i` of the text it formatted for
`n`. -/
def printedChar (n : Int) (i : Nat) : Int :=
  (snprintf6li (DISPLAY_SIZE + 1) (clampNum n)).getD i 0

/-- The byte `print_str_at` ORs into position `i`. -/
def strGlyphAt (past : Nat) (str : List Int) (i : Nat) : Nat :=
  if i < strlen str then strToAsciiAt past (str.getD i 0) else ascii.getD 0 past

/-- The precision `print(float, precision)` works with: at most 3 for `num >= 0`, at
most 2 for `num < 0`. -/
def clampPrecision (num : CFloat) (p : Nat) : Nat :=
  if num.geZero then min p 3 else if num.ltZero then min p 2 else p

/-- A buffer with the decimal-point bit of position `6 - p` set when `1 <= p <= 3`. -/
def withDot (buffer : List Nat) (p : Nat) : List Nat :=
  if 1 ≤ p ∧ p ≤ 3 then buffer.set (6 - p) (buffer.getD (6 - p) 0 ||| 0x80) else buffer

/-- The battery bit `batteryLevel(level)` puts into `buffer[i]`: FULL marks bytes 0, 1,
2, MEDIUM bytes 1, 2, LOW byte 2, NONE none. -/
def batteryMask (level : tBatteryLevel) (i : Nat) : Nat :=
  match level, i with
  | .BATTERY_FULL, 0 => 0x80
  | .BATTERY_FULL, 1 => 0x80
  | .BATTERY_FULL, 2 => 0x80
  | .BATTERY_MEDIUM, 1 => 0x80
  | .BATTERY_MEDIUM, 2 => 0x80
  | .BATTERY_LOW, 2 => 0x80
  | _, _ => 0x00

/-- The dot bit `decimalSeparator(p)` puts into `buffer[i]`: set at index `6 - p` for
`p` in `1..3`. -/
def dotMask (p i : Nat) : Nat :=
  if 1 ≤ p ∧ p ≤ 3 ∧ i = 6 - p then 0x80 else 0x00

/-- Indices among 0, 1, 2 whose byte has the battery bit (bit 7) set. -/
def batteryBits (s : HT1621) : List Nat :=
  [0, 1, 2].filter (fun i => (s.buf i).testBit 7)

/-- Indices among 3, 4, 5 whose byte has the dot bit (bit 7) set. -/
def dotBits (s : HT1621) : List Nat :=
  [3, 4, 5].filter (fun i => (s.buf i).testBit 7)

/-- The events one `wrBytes` call produces for the byte sequence `frame` as sent on
the wire: chip select low, the transfer (bulk payload or clocked bits), chip select
high. -/
def frameEvents (s : HT1621) (frame : List Nat) : List Event :=
  csEvents s.pCsPin LOW
    ++ (if s.pSpiInterface then [Event.spi frame]
        else if s.pSckPin && s.pMosiPin then clocked (frame.flatMap msbBits) else [])
    ++ csEvents s.pCsPin HIGH

/-- The data frame that encodes a six-byte buffer from address 0. -/
def dataFrame (buffer : List Nat) : List Nat :=
  beBytes 8 (dataFrameValue (buffer.getD 5 0 * 256 + buffer.getD 4 0)
    (buffer.getD 3 0 * 256 + buffer.getD 2 0) (buffer.getD 1 0 * 256 + buffer.getD 0 0))

/-- The buffer a data frame carries: the three words split back into bytes. -/
def frameBuffer (frame : List Nat) : List Nat :=
  match unpackData frame with
  | (_, _, w0, w1, w2, _) => [w2 % 256, w2 / 256, w1 % 256, w1 / 256, w0 % 256, w0 / 256]

/-- The transfer inside one `wrBytes` call: the bulk payload, the clocked bits, or
nothing when no transport is configured. -/
def transferEvents (s : HT1621) (frame : List Nat) : List Event :=
  if s.pSpiInterface then [Event.spi frame]
  else if s.pSckPin && s.pMosiPin then clocked (frame.flatMap msbBits) else []

/-- The index of `ascii` that `strToAscii(c)` reads. -/
def asciiIndex (c : Int) : Nat :=
  if c < 32 then 0
  else if c - 32 > (ascii.length : Int) then 0
  else (c - 32).toNat

/-! ## Transport lemmas -/

theorem and_two_pow_eq_ite (x n : Nat) :
    x &&& 2 ^ n = if x.testBit n then 2 ^ n else 0 := by
  apply Nat.eq_of_testBit_eq
  intro i
  rw [Nat.testBit_and, Nat.testBit_two_pow]
  by_cases hi : n = i
  · subst hi
    cases hx : x.testBit n <;> simp [Nat.testBit_two_pow]
  · cases hx : x.testBit n <;> simp [hi, Nat.testBit_two_pow]

theorem and_128_ne_zero (x : Nat) : (x &&& 128 ≠ 0) ↔ x.testBit 7 = true := by
  have h := and_two_pow_eq_ite x 7
  rw [show (2 : Nat) ^ 7 = 128 from rfl] at h
  rw [h]
  cases x.testBit 7 <;> simp

theorem testBit_shl1 (x i : Nat) (hi : i < 7) :
    ((x <<< 1) % 256).testBit (i + 1) = x.testBit i := by
  rw [show (256 : Nat) = 2 ^ 8 from rfl, Nat.testBit_mod_two_pow, Nat.testBit_shiftLeft]
  simp
  omega

theorem bitLoop_eight (b : Nat) : HT1621.bitLoop 8 b = clocked (msbBits b) := by
  simp only [HT1621.bitLoop, msbBits, clocked, and_128_ne_zero, List.cons_append,
    List.nil_append, List.append_nil, HIGH, LOW]
  have e7 : ∀ x, ((x <<< 1) % 256).testBit 7 = x.testBit 6 := fun x => testBit_shl1 x 6 (by omega)
  have e6 : ∀ x, ((x <<< 1) % 256).testBit 6 = x.testBit 5 := fun x => testBit_shl1 x 5 (by omega)
  have e5 : ∀ x, ((x <<< 1) % 256).testBit 5 = x.testBit 4 := fun x => testBit_shl1 x 4 (by omega)
  have e4 : ∀ x, ((x <<< 1) % 256).testBit 4 = x.testBit 3 := fun x => testBit_shl1 x 3 (by omega)
  have e3 : ∀ x, ((x <<< 1) % 256).testBit 3 = x.testBit 2 := fun x => testBit_shl1 x 2 (by omega)
  have e2 : ∀ x, ((x <<< 1) % 256).testBit 2 = x.testBit 1 := fun x => testBit_shl1 x 1 (by omega)
  have e1 : ∀ x, ((x <<< 1) % 256).testBit 1 = x.testBit 0 := fun x => testBit_shl1 x 0 (by omega)
  simp only [e7, e6, e5, e4, e3, e2, e1]
  cases b.testBit 7 <;> cases b.testBit 6 <;> cases b.testBit 5 <;> cases b.testBit 4 <;>
  cases b.testBit 3 <;> cases b.testBit 2 <;> cases b.testBit 1 <;> cases b.testBit 0 <;> rfl

theorem byteLoop_eq (l : List Nat) : HT1621.byteLoop l = clocked (l.flatMap msbBits) := by
  induction l with
  | nil => rfl
  | cons b rest ih =>
    have happ : ∀ xs ys : List Bool, clocked (xs ++ ys) = clocked xs ++ clocked ys := by
      intro xs ys
      induction xs with
      | nil => rfl
      | cons x xs ihx => simp [clocked, ihx]
    simp only [HT1621.byteLoop, BITS_PER_BYTE, bitLoop_eight, ih, List.flatMap_cons, happ]

theorem mosiLevels_clocked (bits : List Bool) : mosiLevels (clocked bits) = bits := by
  induction bits with
  | nil => rfl
  | cons b bs ih => simp [clocked, mosiLevels, ih]

theorem wrBytes_trace (s : HT1621) (ptr : List Nat) :
    (s.wrBytes ptr).trace = s.trace ++ csEvents s.pCsPin LOW
      ++ (if s.pSpiInterface then [Event.spi ptr.reverse]
          else if s.pSckPin && s.pMosiPin then clocked (ptr.reverse.flatMap msbBits) else [])
      ++ csEvents s.pCsPin HIGH := by
  obtain ⟨cs, sck, mosi, bl, spi, buf, tr⟩ := s
  cases cs <;> cases spi <;> cases sck <;> cases mosi <;>
    simp [HT1621.wrBytes, HT1621.emit, csEvents, byteLoop_eq]

theorem wrBytes_frame (s : HT1621) (ptr : List Nat) :
    (s.wrBytes ptr) = { s with trace := (s.wrBytes ptr).trace } := by
  obtain ⟨cs, sck, mosi, bl, spi, buf, tr⟩ := s
  cases cs <;> cases spi <;> cases sck <;> cases mosi <;>
    simp [HT1621.wrBytes, HT1621.emit]

theorem cmdSeq_arr_reverse : ∀ c, c < 256 →
    (tCmdSeq.arr { type := MODE_CMD, data := c }).reverse = cmdFrame c
    ∧ (cmdFrame c).flatMap msbBits
        = [true, false, false, false] ++ msbBits c ++ [false, false, false, false] := by
  decide


theorem wrCmd_eq (s : HT1621) (c : Nat) :
    s.wrCmd c = s.wrBytes (tCmdSeq.arr { type := MODE_CMD, data := c }) := rfl

/-- C1: for every opcode `c` in 0..255, `wrCmd c` hands the transport the two bytes
`[0x80 | (c >> 4), (c & 0x0F) << 4]` (bulk transfer: the payload; bit-banged: their
bits, most significant first), which unpack to tag `0b1000`, opcode `c` and four zero
padding bits; the display buffer is untouched. -/
theorem wrCmd_frame_bytes (c : Nat) (hc : c < 256) (s : HT1621) :
    (s.wrCmd c).trace = s.trace ++ csEvents s.pCsPin LOW
        ++ (if s.pSpiInterface then [Event.spi [0x80 ||| (c >>> 4), (c &&& 0x0F) <<< 4]]
            else if s.pSckPin && s.pMosiPin then
              clocked ([true, false, false, false] ++ msbBits c ++ [false, false, false, false])
            else [])
        ++ csEvents s.pCsPin HIGH
    ∧ unpackCmd [0x80 ||| (c >>> 4), (c &&& 0x0F) <<< 4] = (0b1000, c, 0)
    ∧ (s.wrCmd c).buffer = s.buffer := by
  have h := cmdSeq_arr_reverse c hc
  have hu : ∀ c, c < 256 → unpackCmd [0x80 ||| (c >>> 4), (c &&& 0x0F) <<< 4] = (0b1000, c, 0) := by
    decide
  refine ⟨?_, hu c hc, ?_⟩
  · rw [wrCmd_eq, wrBytes_trace, h.1, h.2]
    rfl
  · rw [wrCmd_eq, wrBytes_frame]

theorem wrCmd_frame_bytes_witness :
    (spiDriver.wrCmd 0x52).trace = spiDriver.trace ++ csEvents spiDriver.pCsPin LOW
        ++ (if spiDriver.pSpiInterface then
              [Event.spi [0x80 ||| (0x52 >>> 4), (0x52 &&& 0x0F) <<< 4]]
            else if spiDriver.pSckPin && spiDriver.pMosiPin then
              clocked ([true, false, false, false] ++ msbBits 0x52
                ++ [false, false, false, false])
            else [])
        ++ csEvents spiDriver.pCsPin HIGH
    ∧ unpackCmd [0x80 ||| (0x52 >>> 4), (0x52 &&& 0x0F) <<< 4] = (0b1000, 0x52, 0)
    ∧ (spiDriver.wrCmd 0x52).buffer = spiDriver.buffer :=
  wrCmd_frame_bytes 0x52 (by decide) spiDriver

theorem or_eq_add_of_dvd (x y i : Nat) (hx : x % 2 ^ i = 0) (hy : y < 2 ^ i) :
    x ||| y = x + y := by
  have h := Nat.mul_add_lt_is_or hy (x / 2 ^ i)
  have hx2 : 2 ^ i * (x / 2 ^ i) = x := by
    have := Nat.div_add_mod x (2 ^ i)
    omega
  rw [hx2] at h
  exact h.symm

theorem dataFrameValue_eq (w0 w1 w2 : Nat) (h0 : w0 < 65536) (h1 : w1 < 65536)
    (h2 : w2 < 65536) :
    dataFrameValue w0 w1 w2 = 5 * 2 ^ 61 + w0 * 2 ^ 39 + w1 * 2 ^ 23 + w2 * 2 ^ 7 := by
  unfold dataFrameValue
  simp only [Nat.shiftLeft_eq, Nat.zero_mul, Nat.or_zero]
  rw [or_eq_add_of_dvd (5 * 2 ^ 61) (w0 * 2 ^ 39) 55 (by omega) (by omega)]
  rw [or_eq_add_of_dvd (5 * 2 ^ 61 + w0 * 2 ^ 39) (w1 * 2 ^ 23) 39 (by omega) (by omega)]
  rw [or_eq_add_of_dvd (5 * 2 ^ 61 + w0 * 2 ^ 39 + w1 * 2 ^ 23) (w2 * 2 ^ 7) 23
    (by omega) (by omega)]

theorem dataSeq_arr_reverse (b0 b1 b2 b3 b4 b5 : Nat) (h0 : b0 < 256) (h1 : b1 < 256)
    (h2 : b2 < 256) (h3 : b3 < 256) (h4 : b4 < 256) (h5 : b5 < 256) :
    (tDataSeq.arr {
        type := MODE_DATA, addr := 0, data0 := (b5 <<< 8) + b4,
        data1 := (b3 <<< 8) + b2, data2 := (b1 <<< 8) + b0 }).reverse
      = beBytes 8 (dataFrameValue (b5 * 256 + b4) (b3 * 256 + b2) (b1 * 256 + b0)) := by
  rw [dataFrameValue_eq _ _ _ (by omega) (by omega) (by omega)]
  simp only [tDataSeq.arr, MODE_DATA, leBytes, packFields, beBytes, Nat.shiftLeft_eq,
    Nat.shiftRight_eq_div_pow, List.reverse_cons, List.reverse_nil, List.nil_append,
    List.cons_append, List.cons.injEq, and_true]
  refine ⟨?_, ?_, ?_, ?_, ?_, ?_, ?_, ?_⟩ <;> omega

theorem unpackData_frame (w0 w1 w2 : Nat) (h0 : w0 < 65536) (h1 : w1 < 65536)
    (h2 : w2 < 65536) :
    unpackData (beBytes 8 (dataFrameValue w0 w1 w2)) = (0b101, 0, w0, w1, w2, 0) := by
  rw [dataFrameValue_eq _ _ _ h0 h1 h2]
  have e6 : (0x3F : Nat) = 2 ^ 6 - 1 := rfl
  have e16 : (0xFFFF : Nat) = 2 ^ 16 - 1 := rfl
  have e7 : (0x7F : Nat) = 2 ^ 7 - 1 := rfl
  have hv : beValue (beBytes 8 (5 * 2 ^ 61 + w0 * 2 ^ 39 + w1 * 2 ^ 23 + w2 * 2 ^ 7))
      = 5 * 2 ^ 61 + w0 * 2 ^ 39 + w1 * 2 ^ 23 + w2 * 2 ^ 7 := by
    simp only [beValue, beBytes, List.foldl_cons, List.foldl_nil, Nat.shiftRight_eq_div_pow]
    omega
  simp only [unpackData, hv, e6, e16, e7, Nat.and_pow_two_sub_one_eq_mod,
    Nat.shiftRight_eq_div_pow, Prod.mk.injEq]
  refine ⟨?_, ?_, ?_, ?_, ?_, ?_⟩ <;> omega

theorem wrBuffer_eq (s : HT1621) :
    s.wrBuffer = s.wrBytes (tDataSeq.arr {
      type := MODE_DATA, addr := 0,
      data0 := (s.buf 5 <<< 8) + s.buf 4, data1 := (s.buf 3 <<< 8) + s.buf 2,
      data2 := (s.buf 1 <<< 8) + s.buf 0 }) := rfl

/-- C2: for every 6-byte buffer `b` of bytes 0..255, `wrBuffer` hands the transport
the big-endian bytes of `(0b101 << 61) | (0 << 55) | (w0 << 39) | (w1 << 23) | (w2 << 7)`
with `w0 = b[5]*256 + b[4]`, `w1 = b[3]*256 + b[2]`, `w2 = b[1]*256 + b[0]`; the frame
unpacks to tag `0b101`, address 0, exactly these words and zero padding, and the
words give back the whole buffer. -/
theorem wrBuffer_frame_bytes (s : HT1621) (b0 b1 b2 b3 b4 b5 : Nat)
    (hb : s.buffer = [b0, b1, b2, b3, b4, b5])
    (h0 : b0 < 256) (h1 : b1 < 256) (h2 : b2 < 256)
    (h3 : b3 < 256) (h4 : b4 < 256) (h5 : b5 < 256) :
    s.wrBuffer.trace = s.trace ++ csEvents s.pCsPin LOW
        ++ (if s.pSpiInterface then
              [Event.spi (beBytes 8
                (dataFrameValue (b5 * 256 + b4) (b3 * 256 + b2) (b1 * 256 + b0)))]
            else if s.pSckPin && s.pMosiPin then
              clocked ((beBytes 8
                (dataFrameValue (b5 * 256 + b4) (b3 * 256 + b2) (b1 * 256 + b0))).flatMap
                  msbBits)
            else [])
        ++ csEvents s.pCsPin HIGH
    ∧ unpackData (beBytes 8 (dataFrameValue (b5 * 256 + b4) (b3 * 256 + b2) (b1 * 256 + b0)))
        = (0b101, 0, b5 * 256 + b4, b3 * 256 + b2, b1 * 256 + b0, 0)
    ∧ [(b1 * 256 + b0) % 256, (b1 * 256 + b0) / 256, (b3 * 256 + b2) % 256,
        (b3 * 256 + b2) / 256, (b5 * 256 + b4) % 256, (b5 * 256 + b4) / 256] = s.buffer
    ∧ s.wrBuffer.buffer = s.buffer := by
  refine ⟨?_, unpackData_frame _ _ _ (by omega) (by omega) (by omega), ?_, ?_⟩
  · rw [wrBuffer_eq, wrBytes_trace]
    simp only [HT1621.buf, hb, List.getD_cons_zero, List.getD_cons_succ]
    rw [dataSeq_arr_reverse b0 b1 b2 b3 b4 b5 h0 h1 h2 h3 h4 h5]
  · rw [hb]
    simp only [List.cons.injEq, and_true]
    refine ⟨?_, ?_, ?_, ?_, ?_, ?_⟩ <;> omega
  · rw [wrBuffer_eq, wrBytes_frame]

theorem wrBuffer_frame_bytes_witness :
    spiDriver.wrBuffer.trace = spiDriver.trace ++ csEvents spiDriver.pCsPin LOW
        ++ (if spiDriver.pSpiInterface then
              [Event.spi (beBytes 8
                (dataFrameValue (0x63 * 256 + 0xfa) (0x3e * 256 + 0x60) (0x7D * 256 + 0x80)))]
            else if spiDriver.pSckPin && spiDriver.pMosiPin then
              clocked ((beBytes 8
                (dataFrameValue (0x63 * 256 + 0xfa) (0x3e * 256 + 0x60)
                  (0x7D * 256 + 0x80))).flatMap msbBits)
            else [])
        ++ csEvents spiDriver.pCsPin HIGH
    ∧ unpackData (beBytes 8
          (dataFrameValue (0x63 * 256 + 0xfa) (0x3e * 256 + 0x60) (0x7D * 256 + 0x80)))
        = (0b101, 0, 0x63 * 256 + 0xfa, 0x3e * 256 + 0x60, 0x7D * 256 + 0x80, 0)
    ∧ [(0x7D * 256 + 0x80) % 256, (0x7D * 256 + 0x80) / 256, (0x3e * 256 + 0x60) % 256,
        (0x3e * 256 + 0x60) / 256, (0x63 * 256 + 0xfa) % 256, (0x63 * 256 + 0xfa) / 256]
        = spiDriver.buffer
    ∧ spiDriver.wrBuffer.buffer = spiDriver.buffer :=
  wrBuffer_frame_bytes spiDriver 0x80 0x7D 0x60 0x3e 0xfa 0x63 rfl
    (by decide) (by decide) (by decide) (by decide) (by decide) (by decide)

theorem clocked_mosi_neighbours (bits : List Bool) :
    ∀ i b, (clocked bits)[i]? = some (Event.mosi b) →
      0 < i ∧ (clocked bits)[i - 1]? = some (Event.sck LOW)
        ∧ (clocked bits)[i + 1]? = some (Event.sck HIGH) := by
  induction bits with
  | nil => intro i b h; simp [clocked] at h
  | cons x xs ih =>
    intro i b h
    match i, h with
    | 0, h => simp [clocked] at h
    | 1, _ => simp [clocked]
    | 2, h => simp [clocked] at h
    | j + 3, h =>
      have hj : (clocked xs)[j]? = some (Event.mosi b) := by simpa [clocked] using h
      obtain ⟨hpos, hprev, hnext⟩ := ih j b hj
      obtain ⟨k, rfl⟩ : ∃ k, j = k + 1 := ⟨j - 1, by omega⟩
      refine ⟨by omega, ?_, ?_⟩
      · simpa [clocked] using hprev
      · simpa [clocked] using hnext

theorem framed_mosi_neighbours (pCs : Bool) (bits : List Bool) :
    ∀ i b, (csEvents pCs LOW ++ clocked bits ++ csEvents pCs HIGH)[i]? = some (Event.mosi b) →
      0 < i ∧ (csEvents pCs LOW ++ clocked bits ++ csEvents pCs HIGH)[i - 1]?
          = some (Event.sck LOW)
        ∧ (csEvents pCs LOW ++ clocked bits ++ csEvents pCs HIGH)[i + 1]?
          = some (Event.sck HIGH) := by
  have inner : ∀ (post : List Event) j b, (∀ e ∈ post, ∀ c, e ≠ Event.mosi c) →
      (clocked bits ++ post)[j]? = some (Event.mosi b) →
      0 < j ∧ (clocked bits ++ post)[j - 1]? = some (Event.sck LOW)
        ∧ (clocked bits ++ post)[j + 1]? = some (Event.sck HIGH) := by
    intro post j b hpost h
    by_cases hj : j < (clocked bits).length
    · rw [List.getElem?_append_left hj] at h
      obtain ⟨hpos, hprev, hnext⟩ := clocked_mosi_neighbours bits j b h
      have hn : j + 1 < (clocked bits).length := by
        by_contra hc
        rw [List.getElem?_eq_none (by omega)] at hnext
        exact absurd hnext (by simp)
      refine ⟨hpos, ?_, ?_⟩
      · rw [List.getElem?_append_left (by omega)]; exact hprev
      · rw [List.getElem?_append_left hn]; exact hnext
    · rw [List.getElem?_append_right (by omega)] at h
      have hm := List.getElem?_mem h
      exact absurd rfl (hpost _ hm b)
  intro i b h
  cases pCs with
  | false =>
    simp only [csEvents, Bool.false_eq_true, if_false, List.nil_append, List.append_nil] at h ⊢
    exact clocked_mosi_neighbours bits i b h
  | true =>
    simp only [csEvents, if_true, List.singleton_append, List.cons_append,
      List.nil_append] at h ⊢
    match i, h with
    | 0, h => simp at h
    | j + 1, h =>
      have hj : (clocked bits ++ [Event.cs HIGH])[j]? = some (Event.mosi b) := by
        simpa using h
      obtain ⟨hpos, hprev, hnext⟩ := inner [Event.cs HIGH] j b (by simp) hj
      obtain ⟨k, rfl⟩ : ∃ k, j = k + 1 := ⟨j - 1, by omega⟩
      refine ⟨by omega, ?_, ?_⟩
      · simpa using hprev
      · simpa using hnext

theorem length_flatMap_msbBits (l : List Nat) : (l.flatMap msbBits).length = 8 * l.length := by
  induction l with
  | nil => rfl
  | cons b rest ih => simp [List.flatMap_cons, msbBits, ih]; omega

theorem mosiLevels_append (xs ys : List Event) :
    mosiLevels (xs ++ ys) = mosiLevels xs ++ mosiLevels ys := by
  induction xs with
  | nil => rfl
  | cons x xs ih => cases x <;> simp [mosiLevels, ih]

/-- C3: in bit-banged mode (no bulk-transfer callback, clock and data callbacks
present) `wrBytes` on an array of length `n` writes to the data line exactly the `8*n`
bits of the array in reversed byte order, each byte most significant bit first, and
every data-line write is immediately preceded by clock LOW and immediately followed by
clock HIGH. -/
theorem wrBytes_bitbang (s : HT1621) (ptr : List Nat) (hspi : s.pSpiInterface = false)
    (hsck : s.pSckPin = true) (hmosi : s.pMosiPin = true) :
    (s.wrBytes ptr).trace = s.trace ++ (csEvents s.pCsPin LOW
        ++ clocked (ptr.reverse.flatMap msbBits) ++ csEvents s.pCsPin HIGH)
    ∧ mosiLevels (csEvents s.pCsPin LOW ++ clocked (ptr.reverse.flatMap msbBits)
        ++ csEvents s.pCsPin HIGH) = ptr.reverse.flatMap msbBits
    ∧ (ptr.reverse.flatMap msbBits).length = 8 * ptr.length
    ∧ ∀ i b, (csEvents s.pCsPin LOW ++ clocked (ptr.reverse.flatMap msbBits)
          ++ csEvents s.pCsPin HIGH)[i]? = some (Event.mosi b) →
        0 < i
        ∧ (csEvents s.pCsPin LOW ++ clocked (ptr.reverse.flatMap msbBits)
            ++ csEvents s.pCsPin HIGH)[i - 1]? = some (Event.sck LOW)
        ∧ (csEvents s.pCsPin LOW ++ clocked (ptr.reverse.flatMap msbBits)
            ++ csEvents s.pCsPin HIGH)[i + 1]? = some (Event.sck HIGH) := by
  refine ⟨?_, ?_, ?_, framed_mosi_neighbours _ _⟩
  · rw [wrBytes_trace, hspi, hsck, hmosi]
    simp
  · rw [mosiLevels_append, mosiLevels_append, mosiLevels_clocked]
    cases s.pCsPin <;> simp [csEvents, mosiLevels]
  · rw [length_flatMap_msbBits, List.length_reverse]

theorem wrBytes_bitbang_witness :
    (pinDriver.wrBytes [0x01, 0xA5]).trace = pinDriver.trace ++ (csEvents pinDriver.pCsPin LOW
        ++ clocked ([0x01, 0xA5].reverse.flatMap msbBits) ++ csEvents pinDriver.pCsPin HIGH)
    ∧ mosiLevels (csEvents pinDriver.pCsPin LOW ++ clocked ([0x01, 0xA5].reverse.flatMap msbBits)
        ++ csEvents pinDriver.pCsPin HIGH)
      = [true, false, true, false, false, true, false, true,
         false, false, false, false, false, false, false, true] :=
  ⟨(wrBytes_bitbang pinDriver [0x01, 0xA5] rfl rfl rfl).1,
   (wrBytes_bitbang pinDriver [0x01, 0xA5] rfl rfl rfl).2.1⟩

/-- C4: both constructors emit exactly six command frames and nothing else, for the
opcodes BIAS 0x52, RC256 0x30, SYSDIS 0x00, WDTDIS1 0x0A, SYSEN 0x02, LCDON 0x06 in
this order; the bit-banged and the bulk-transfer constructor send the same frame
sequence, and neither drives the backlight nor touches the zeroed buffer. -/
theorem constructors_init_sequence :
    initOpcodes = [0x52, 0x30, 0x00, 0x0A, 0x02, 0x06]
    ∧ (∀ pCs pBacklight : Bool,
        (HT1621.mkPins pCs true true pBacklight).trace
          = initOpcodes.flatMap (fun c => csEvents pCs LOW
              ++ clocked ((cmdFrame c).flatMap msbBits) ++ csEvents pCs HIGH)
        ∧ (HT1621.mkSpi true pCs pBacklight).trace
          = initOpcodes.flatMap (fun c => csEvents pCs LOW
              ++ [Event.spi (cmdFrame c)] ++ csEvents pCs HIGH)
        ∧ (HT1621.mkPins pCs true true pBacklight).buffer = [0, 0, 0, 0, 0, 0]
        ∧ (HT1621.mkSpi true pCs pBacklight).buffer = [0, 0, 0, 0, 0, 0])
    ∧ (∀ pBacklight : Bool,
        framesOf (HT1621.mkPins true true true pBacklight).trace = initOpcodes.map cmdFrame
        ∧ framesOf (HT1621.mkSpi true true pBacklight).trace = initOpcodes.map cmdFrame)
    ∧ initOpcodes.map cmdFrame
        = [[0x85, 0x20], [0x83, 0x00], [0x80, 0x00], [0x80, 0xA0], [0x80, 0x20], [0x80, 0x60]]
    ∧ initOpcodes.map (fun c => unpackCmd (cmdFrame c))
        = [(8, 0x52, 0), (8, 0x30, 0), (8, 0x00, 0), (8, 0x0A, 0), (8, 0x02, 0), (8, 0x06, 0)] := by
  decide

/-! ## Glyph lookup and `print(const char *)` -/

theorem ascii_lt_128 : ∀ k, k < 64 → ascii.getD k 0 < 128 ∧ ascii[k]? = some (ascii.getD k 0) := by
  decide

theorem glyphOf_lt (c : Int) : glyphOf c < 128 := by
  unfold glyphOf
  split
  · next h =>
    exact (ascii_lt_128 (c - 0x20).toNat (by omega)).1
  · omega

theorem strToAscii_eq_glyphOf (c : Int) (hc : c ≠ 0x60) : strToAscii c = some (glyphOf c) := by
  unfold strToAscii glyphOf
  by_cases h1 : c < 32
  · rw [if_pos h1, if_neg (by omega)]; rfl
  · rw [if_neg h1]
    by_cases h2 : c - 32 > (ascii.length : Int)
    · rw [if_pos h2, if_neg]
      · rfl
      · have : (ascii.length : Int) = 64 := rfl
        omega
    · have hl : (ascii.length : Int) = 64 := rfl
      rw [if_neg h2, if_pos (by omega)]
      exact (ascii_lt_128 (c - 32).toNat (by omega)).2

theorem strToAscii_96 : strToAscii 0x60 = none := by decide

theorem print_str_96 (s : HT1621) : s.print_str [0x60] = none := by
  simp [HT1621.print_str, HT1621.forLoop, HT1621.printStrBody, strlen, strToAscii_96, DISPLAY_SIZE]

/-! ## Bit facts -/

theorem and_128 (x : Nat) : x &&& 128 = if x.testBit 7 then 128 else 0 :=
  and_two_pow_eq_ite x 7

theorem or_glyph_mod (x g : Nat) (hg : g < 128) : ((x &&& 128) ||| g) % 128 = g := by
  rw [and_128]
  cases x.testBit 7
  · simp; omega
  · rw [if_pos rfl, or_eq_add_of_dvd 128 g 7 (by decide) (by omega)]
    omega

theorem or_glyph_testBit (x g : Nat) (hg : g < 128) :
    ((x &&& 128) ||| g).testBit 7 = x.testBit 7 := by
  rw [and_128]
  cases x.testBit 7
  · simp [Nat.testBit_to_div_mod]; omega
  · rw [if_pos rfl, or_eq_add_of_dvd 128 g 7 (by decide) (by omega)]
    simp [Nat.testBit_to_div_mod]; omega

theorem and_127_and_128 (x : Nat) : (x &&& 127) &&& 128 = 0 := by
  rw [and_128, show (127 : Nat) = 2 ^ 7 - 1 from rfl, Nat.and_pow_two_sub_one_eq_mod]
  simp [Nat.testBit_to_div_mod]

theorem testBit_7_of_lt (g : Nat) (hg : g < 128) : g.testBit 7 = false := by
  simp [Nat.testBit_to_div_mod]; omega

theorem clears_buffer (s : HT1621) (b0 b1 b2 b3 b4 b5 : Nat)
    (hb : s.buffer = [b0, b1, b2, b3, b4, b5]) :
    s.dotsBufferClear.lettersBufferClear
      = { s with buffer := [b0 &&& 128, b1 &&& 128, b2 &&& 128, 0, 0, 0] } := by
  obtain ⟨cs, sck, mosi, bl, spi, buf, tr⟩ := s
  simp only at hb
  subst hb
  simp [HT1621.dotsBufferClear, HT1621.lettersBufferClear, HT1621.forLoop,
    HT1621.lettersBufferClearBody, HT1621.setBuf, HT1621.buf, DISPLAY_SIZE, DOT_SEG, BATTERY_SEG,
    and_127_and_128]

theorem forLoop_or (body : Nat → HT1621 → Option HT1621) (g : Nat → Nat)
    (hbody : ∀ i s, i < 6 → body i s = some (s.setBuf i (s.buf i ||| g i)))
    (s : HT1621) (a0 a1 a2 a3 a4 a5 : Nat) (hb : s.buffer = [a0, a1, a2, a3, a4, a5]) :
    HT1621.forLoop body 6 0 s = some { s with buffer :=
      [a0 ||| g 0, a1 ||| g 1, a2 ||| g 2, a3 ||| g 3, a4 ||| g 4, a5 ||| g 5] } := by
  obtain ⟨cs, sck, mosi, bl, spi, buf, tr⟩ := s
  simp only at hb
  subst hb
  simp [HT1621.forLoop, hbody, HT1621.setBuf, HT1621.buf]

theorem strGlyph_lt (str : List Int) (i : Nat) : strGlyph str i < 128 := by
  unfold strGlyph
  split
  · exact glyphOf_lt _
  · omega

theorem print_str_eq (s : HT1621) (str : List Int) :
    s.print_str str = (HT1621.forLoop (HT1621.printStrBody str) 6 0
      s.dotsBufferClear.lettersBufferClear).map HT1621.wrBuffer := rfl

theorem print_str_result (s : HT1621) (str : List Int) (b0 b1 b2 b3 b4 b5 : Nat)
    (hb : s.buffer = [b0, b1, b2, b3, b4, b5])
    (hstr : ∀ i, i < 6 → i < strlen str → str.getD i 0 ≠ 0x60) :
    s.print_str str = some (HT1621.wrBuffer { s with buffer :=
      [b0 &&& 128 ||| strGlyph str 0, b1 &&& 128 ||| strGlyph str 1,
       b2 &&& 128 ||| strGlyph str 2, strGlyph str 3, strGlyph str 4, strGlyph str 5] }) := by
  have hbody : ∀ i t, i < 6 →
      HT1621.printStrBody str i t = some (t.setBuf i (t.buf i ||| strGlyph str i)) := by
    intro i t hi
    unfold HT1621.printStrBody strGlyph
    by_cases hl : i < strlen str
    · rw [if_pos hl, if_pos hl, strToAscii_eq_glyphOf _ (hstr i hi hl)]
      rfl
    · rw [if_neg hl, if_neg hl]
      rfl
  rw [print_str_eq, clears_buffer s b0 b1 b2 b3 b4 b5 hb,
    forLoop_or _ _ hbody _ (b0 &&& 128) (b1 &&& 128) (b2 &&& 128) 0 0 0 rfl]
  simp

/-- Effect of `print(const char *)` on a six-byte buffer when none of the characters it
reads is `0x60`: the call returns, each low seven bits hold the glyph of the character
at that position (blank past the end of the string), the dot bits are cleared and the
battery bits are kept. -/
theorem print_str_buffer (s : HT1621) (str : List Int) (b0 b1 b2 b3 b4 b5 : Nat)
    (hb : s.buffer = [b0, b1, b2, b3, b4, b5])
    (hstr : ∀ i, i < 6 → i < strlen str → str.getD i 0 ≠ 0x60) :
    ∃ t, s.print_str str = some t
      ∧ (∀ i, i < 6 → t.buf i % 128 = if i < strlen str then glyphOf (str.getD i 0) else 0)
      ∧ (t.buf 3).testBit 7 = false ∧ (t.buf 4).testBit 7 = false
      ∧ (t.buf 5).testBit 7 = false
      ∧ (t.buf 0).testBit 7 = b0.testBit 7 ∧ (t.buf 1).testBit 7 = b1.testBit 7
      ∧ (t.buf 2).testBit 7 = b2.testBit 7 := by
  refine ⟨_, print_str_result s str b0 b1 b2 b3 b4 b5 hb hstr, ?_⟩
  have hg := strGlyph_lt str
  rw [wrBuffer_eq, wrBytes_frame]
  simp only [HT1621.buf, List.getD_cons_zero, List.getD_cons_succ]
  refine ⟨?_, testBit_7_of_lt _ (hg 3), testBit_7_of_lt _ (hg 4), testBit_7_of_lt _ (hg 5),
    or_glyph_testBit _ _ (hg 0), or_glyph_testBit _ _ (hg 1), or_glyph_testBit _ _ (hg 2)⟩
  intro i hi
  have e : ∀ j, (if j < strlen str then glyphOf (str.getD j 0) else 0) = strGlyph str j :=
    fun j => rfl
  rw [e]
  match i, hi with
  | 0, _ => exact or_glyph_mod _ _ (hg 0)
  | 1, _ => exact or_glyph_mod _ _ (hg 1)
  | 2, _ => exact or_glyph_mod _ _ (hg 2)
  | 3, _ => exact Nat.mod_eq_of_lt (hg 3)
  | 4, _ => exact Nat.mod_eq_of_lt (hg 4)
  | 5, _ => exact Nat.mod_eq_of_lt (hg 5)

/-! ## `print(int32_t)` -/

theorem digitChars_spec : ∀ fuel a, a < 10 ^ fuel → 0 < fuel →
    (digitChars fuel a).length = Nat.log 10 a + 1 ∧
    ∀ j, j ≤ Nat.log 10 a →
      (digitChars fuel a).getD j 0 = 48 + ((a / 10 ^ (Nat.log 10 a - j) % 10 : Nat) : Int) := by
  intro fuel
  induction fuel with
  | zero => intro a _ h; omega
  | succ f ih =>
    intro a ha _
    by_cases h10 : a < 10
    · have hlog : Nat.log 10 a = 0 := Nat.log_of_lt h10
      simp only [digitChars, if_pos h10, hlog]
      refine ⟨rfl, ?_⟩
      intro j hj
      have hj0 : j = 0 := by omega
      subst hj0
      simp [Nat.mod_eq_of_lt h10]
    · have hge : 10 ≤ a := by omega
      have hlog : Nat.log 10 a = Nat.log 10 (a / 10) + 1 :=
        Nat.log_of_one_lt_of_le (by omega) hge
      have hf : 0 < f := by
        rcases f with _ | f
        · simp at ha; omega
        · omega
      have hdiv : a / 10 < 10 ^ f := by
        rw [pow_succ] at ha
        omega
      obtain ⟨hlen, hget⟩ := ih (a / 10) hdiv hf
      simp only [digitChars, if_neg h10]
      refine ⟨by rw [List.length_append, hlen, hlog]; rfl, ?_⟩
      intro j hj
      by_cases hjl : j ≤ Nat.log 10 (a / 10)
      · rw [List.getD_append _ _ _ _ (by omega), hget j hjl, hlog]
        have e : Nat.log 10 (a / 10) + 1 - j = (Nat.log 10 (a / 10) - j) + 1 := by omega
        rw [e, pow_succ, Nat.mul_comm, ← Nat.div_div_eq_div_mul]
      · have hj2 : j = Nat.log 10 (a / 10) + 1 := by omega
        rw [List.getD_append_right _ _ _ _ (by omega), hlen, hj2, hlog, Nat.sub_self,
          pow_zero, Nat.div_one]
        rfl

theorem log10_lt (a k : Nat) (h : a < 10 ^ k) (hk : 0 < k) : Nat.log 10 a < k := by
  by_cases ha : a = 0
  · subst ha; simpa using hk
  · exact Nat.log_lt_of_lt_pow ha h

theorem format6li_spec (n : Int) (hlo : -99999 ≤ n) (hhi : n ≤ 999999) :
    (format6li n).length = 6 ∧ ∀ i, i < 6 → (format6li n).getD i 0 = intChar n i := by
  have ha20 : n.natAbs < 10 ^ 20 := by omega
  obtain ⟨hlen, hget⟩ := digitChars_spec 20 n.natAbs ha20 (by omega)
  by_cases hneg : n < 0
  · have hd : Nat.log 10 n.natAbs < 5 := log10_lt _ 5 (by omega) (by omega)
    have hbody : format6li n = List.replicate (5 - (Nat.log 10 n.natAbs + 1)) 32
        ++ (45 :: digitChars 20 n.natAbs) := by
      simp only [format6li, if_pos hneg, List.singleton_append, List.length_cons, hlen]
      congr 2
      omega
    rw [hbody]
    refine ⟨by simp [hlen]; omega, ?_⟩
    intro i hi
    unfold intChar
    by_cases h1 : 6 ≤ i + (Nat.log 10 n.natAbs + 1)
    · rw [if_pos h1, List.getD_append_right _ _ _ _ (by simp; omega)]
      obtain ⟨k, hk⟩ : ∃ k, i - (List.replicate (5 - (Nat.log 10 n.natAbs + 1)) (32 : Int)).length
          = k + 1 := ⟨i + Nat.log 10 n.natAbs - 5, by simp; omega⟩
      rw [hk, List.getD_cons_succ, hget k (by simp at hk; omega)]
      have e : Nat.log 10 n.natAbs - k = 5 - i := by simp at hk; omega
      rw [e]
    · rw [if_neg h1]
      by_cases h2 : i + (Nat.log 10 n.natAbs + 1) + 1 = 6
      · rw [if_pos ⟨hneg, h2⟩, List.getD_append_right _ _ _ _ (by simp; omega)]
        have e : i - (List.replicate (5 - (Nat.log 10 n.natAbs + 1)) (32 : Int)).length = 0 := by
          simp; omega
        rw [e, List.getD_cons_zero]
      · rw [if_neg (by tauto), List.getD_append _ _ _ _ (by simp; omega),
          List.getD_eq_getElem _ _ (by simp; omega)]
        simp
  · have hd : Nat.log 10 n.natAbs < 6 := log10_lt _ 6 (by omega) (by omega)
    have hbody : format6li n = List.replicate (6 - (Nat.log 10 n.natAbs + 1)) 32
        ++ digitChars 20 n.natAbs := by
      simp only [format6li, if_neg hneg, List.nil_append, hlen]
    rw [hbody]
    refine ⟨by simp [hlen]; omega, ?_⟩
    intro i hi
    unfold intChar
    by_cases h1 : 6 ≤ i + (Nat.log 10 n.natAbs + 1)
    · rw [if_pos h1, List.getD_append_right _ _ _ _ (by simp; omega),
        hget _ (by simp; omega)]
      have e : Nat.log 10 n.natAbs
          - (i - (List.replicate (6 - (Nat.log 10 n.natAbs + 1)) (32 : Int)).length) = 5 - i := by
        simp; omega
      rw [e]
    · rw [if_neg h1, if_neg (by tauto), List.getD_append _ _ _ _ (by simp; omega),
        List.getD_eq_getElem _ _ (by simp; omega)]
      simp

theorem clampNum_eq (n : Int) :
    (if (if n > MAX_NUM then MAX_NUM else n) < MIN_NUM then MIN_NUM
      else (if n > MAX_NUM then MAX_NUM else n)) = clampNum n := by
  unfold clampNum MAX_NUM MIN_NUM
  split <;> split <;> omega

theorem clampNum_range (n : Int) : -99999 ≤ clampNum n ∧ clampNum n ≤ 999999 := by
  unfold clampNum
  omega

theorem clampNum_idem (n : Int) : clampNum (clampNum n) = clampNum n := by
  unfold clampNum
  omega

theorem print_int_eq (s : HT1621) (n : Int) :
    s.print_int n = (HT1621.forLoop (HT1621.printIntBody (snprintf6li 7 (clampNum n))) 6 0
      s.dotsBufferClear.lettersBufferClear).map HT1621.wrBuffer := by
  rw [← clampNum_eq]
  rfl

theorem vaLong_of_nonneg (n : Int) (hlo : 0 ≤ n) (hhi : n ≤ 999999) : vaLong n = n := by
  unfold vaLong LONG_BITS
  rw [if_neg (by decide)]
  omega

theorem snprintf6li_spec (n : Int) (hlo : 0 ≤ n) (hhi : n ≤ 999999) :
    snprintf6li 7 n = format6li n ++ [0]
    ∧ ∀ i, i < 6 → (snprintf6li 7 n).getD i 0 = intChar n i := by
  obtain ⟨hlen, hget⟩ := format6li_spec n (by omega) hhi
  have h : snprintf6li 7 n = format6li n ++ [0] := by
    unfold snprintf6li
    rw [vaLong_of_nonneg n hlo hhi]
    have ht : (format6li n).take (7 - 1) = format6li n := by
      rw [List.take_of_length_le (by omega)]
    simp only [ht, hlen]
    rfl
  refine ⟨h, ?_⟩
  intro i hi
  rw [h, List.getD_append _ _ _ _ (by omega)]
  exact hget i hi

theorem intChar_ne_backquote (n : Int) (i : Nat) : intChar n i ≠ 0x60 := by
  unfold intChar
  split
  · omega
  · split <;> omega

theorem digitChars_mem : ∀ fuel a c, c ∈ digitChars fuel a → 48 ≤ c ∧ c ≤ 57 := by
  intro fuel
  induction fuel with
  | zero => intro a c h; simp [digitChars] at h
  | succ f ih =>
    intro a c h
    by_cases h10 : a < 10
    · simp only [digitChars, if_pos h10, List.mem_singleton] at h
      omega
    · simp only [digitChars, if_neg h10, List.mem_append, List.mem_singleton] at h
      rcases h with h | h
      · exact ih _ c h
      · have := Nat.mod_lt a (show 10 > 0 by decide)
        omega

theorem format6li_mem (v c : Int) (h : c ∈ format6li v) :
    c = 32 ∨ c = 45 ∨ (48 ≤ c ∧ c ≤ 57) := by
  simp only [format6li, List.mem_append, List.mem_replicate] at h
  rcases h with h | h | h
  · exact Or.inl h.2
  · split at h
    · simp only [List.mem_singleton] at h
      exact Or.inr (Or.inl h)
    · simp at h
  · exact Or.inr (Or.inr (digitChars_mem _ _ c h))

theorem format6li_length_ge (v : Int) : 6 ≤ (format6li v).length := by
  simp only [format6li, List.length_append, List.length_replicate]
  omega

theorem printedChar_mem (n : Int) (i : Nat) (hi : i < 6) :
    printedChar n i ∈ format6li (vaLong (clampNum n)) := by
  have hlen := format6li_length_ge (vaLong (clampNum n))
  have ht : ((format6li (vaLong (clampNum n))).take 6).length = 6 := by
    rw [List.length_take]
    omega
  have hget : printedChar n i = ((format6li (vaLong (clampNum n))).take 6).getD i 0 := by
    unfold printedChar snprintf6li
    exact List.getD_append _ _ _ _ (by rw [show DISPLAY_SIZE + 1 - 1 = 6 from rfl, ht]; exact hi)
  rw [hget, List.getD_eq_getElem _ _ (by omega)]
  exact List.mem_of_mem_take (List.getElem_mem _)

theorem printedChar_ne_backquote (n : Int) (i : Nat) (hi : i < 6) : printedChar n i ≠ 0x60 := by
  have h := format6li_mem _ _ (printedChar_mem n i hi)
  omega

theorem printedChar_clampNum (n : Int) (i : Nat) :
    printedChar (clampNum n) i = printedChar n i := by
  unfold printedChar
  rw [clampNum_idem]

theorem printedChar_of_nonneg (n : Int) (hlo : 0 ≤ n) (hhi : n ≤ 999999) (i : Nat)
    (hi : i < 6) : printedChar n i = intChar n i := by
  have hc : clampNum n = n := by unfold clampNum; omega
  unfold printedChar
  rw [hc]
  exact (snprintf6li_spec n hlo hhi).2 i hi

theorem printIntBody_eq (n : Int) (i : Nat) (t : HT1621) (hi : i < 6) :
    HT1621.printIntBody (snprintf6li 7 (clampNum n)) i t
      = some (t.setBuf i (t.buf i ||| glyphOf (printedChar n i))) := by
  have h := strToAscii_eq_glyphOf _ (printedChar_ne_backquote n i hi)
  unfold printedChar at h
  unfold HT1621.printIntBody printedChar
  rw [show DISPLAY_SIZE + 1 = 7 from rfl] at h ⊢
  rw [h]
  rfl

theorem print_int_result (s : HT1621) (n : Int) (b0 b1 b2 b3 b4 b5 : Nat)
    (hb : s.buffer = [b0, b1, b2, b3, b4, b5]) :
    s.print_int n = some (HT1621.wrBuffer { s with buffer :=
      [b0 &&& 128 ||| glyphOf (printedChar n 0),
       b1 &&& 128 ||| glyphOf (printedChar n 1),
       b2 &&& 128 ||| glyphOf (printedChar n 2),
       glyphOf (printedChar n 3), glyphOf (printedChar n 4),
       glyphOf (printedChar n 5)] }) := by
  rw [print_int_eq, clears_buffer s b0 b1 b2 b3 b4 b5 hb,
    forLoop_or _ _ (fun i t hi => printIntBody_eq n i t hi) _
      (b0 &&& 128) (b1 &&& 128) (b2 &&& 128) 0 0 0 rfl]
  simp

theorem forLoop_isSome (body : Nat → HT1621 → Option HT1621) (k : Nat)
    (hbody : ∀ i t, i < k → (body i t).isSome = true) :
    ∀ n i t, i + n ≤ k → (HT1621.forLoop body n i t).isSome = true := by
  intro n
  induction n with
  | zero => intro i t _; rfl
  | succ m ih =>
    intro i t h
    have hb := hbody i t (by omega)
    obtain ⟨u, hu⟩ := Option.isSome_iff_exists.mp hb
    simp only [HT1621.forLoop, hu, Option.some_bind]
    exact ih (i + 1) u (by omega)

theorem print_int_isSome (s : HT1621) (n : Int) : (s.print_int n).isSome = true := by
  have hloop := forLoop_isSome (HT1621.printIntBody (snprintf6li 7 (clampNum n))) 6
    (fun i t hi => by rw [printIntBody_eq n i t hi]; rfl)
    6 0 s.dotsBufferClear.lettersBufferClear (by omega)
  obtain ⟨u, hu⟩ := Option.isSome_iff_exists.mp hloop
  rw [print_int_eq, hu]
  rfl

/-- C7: for every integer `n` and every prior state, `print(n)` returns and leaves the
same state as `print` of `n` clamped into `[-99999, 999999]`; in particular
`print(1000000)` equals `print(999999)` and `print(-100000)` equals `print(-99999)`. -/
theorem print_int_clamps (s : HT1621) (n : Int) :
    s.print_int n = s.print_int (min (max n (-99999)) 999999)
    ∧ (s.print_int n).isSome = true
    ∧ s.print_int 1000000 = s.print_int 999999
    ∧ s.print_int (-100000) = s.print_int (-99999) := by
  have h : ∀ m, s.print_int m = s.print_int (clampNum m) := by
    intro m
    rw [print_int_eq, print_int_eq, clampNum_idem]
  refine ⟨h n, print_int_isSome s n, ?_, ?_⟩
  · rw [h 1000000, h 999999]; rfl
  · rw [h (-100000), h (-99999)]; rfl

theorem glyphOf_digit : ∀ d, d < 10 → glyphOf (48 + ((d : Nat) : Int)) = digitGlyph d := by
  decide

theorem glyphOf_intChar (n : Int) (i : Nat) :
    glyphOf (intChar n i)
      = if 6 ≤ i + (Nat.log 10 n.natAbs + 1) then digitGlyph (n.natAbs / 10 ^ (5 - i) % 10)
        else if n < 0 ∧ i + (Nat.log 10 n.natAbs + 1) + 1 = 6 then 0x02
        else 0x00 := by
  unfold intChar
  split
  · exact glyphOf_digit _ (Nat.mod_lt _ (by omega))
  · split <;> rfl

/-- Layout `print(int32_t)` gives a value it formats as passed (`0 <= n <= 999999`):
the call returns with the low seven bits of `buffer[0..5]` holding the glyphs of the
decimal representation of `n` right-aligned in six characters, digit
`n / 10^(5-i) % 10` in each of the last `d` positions (`d` the number of decimal
digits of `n`) and blank `0x00` before them; the formatted text has exactly six
characters, so `snprintf` stores all of it. -/
theorem print_int_digits_nonneg (s : HT1621) (b0 b1 b2 b3 b4 b5 : Nat)
    (hb : s.buffer = [b0, b1, b2, b3, b4, b5])
    (n : Int) (hlo : 0 ≤ n) (hhi : n ≤ 999999) :
    ∃ t, s.print_int n = some t
      ∧ (∀ i, i < 6 → t.buf i % 128 =
          if 6 ≤ i + (Nat.log 10 n.natAbs + 1) then
            digitGlyph (n.natAbs / 10 ^ (5 - i) % 10)
          else 0x00)
      ∧ (format6li n).length = 6
      ∧ snprintf6li (DISPLAY_SIZE + 1) n = format6li n ++ [0] := by
  refine ⟨_, print_int_result s n b0 b1 b2 b3 b4 b5 hb, ?_, (format6li_spec n (by omega) hhi).1,
    (snprintf6li_spec n hlo hhi).1⟩
  rw [wrBuffer_eq, wrBytes_frame]
  simp only [HT1621.buf, List.getD_cons_zero, List.getD_cons_succ]
  have hg := fun j => glyphOf_lt (printedChar n j)
  have hch : ∀ i, i < 6 → glyphOf (printedChar n i)
      = if 6 ≤ i + (Nat.log 10 n.natAbs + 1) then digitGlyph (n.natAbs / 10 ^ (5 - i) % 10)
        else 0x00 := by
    intro i hi
    rw [printedChar_of_nonneg n hlo hhi i hi, glyphOf_intChar]
    split
    · rfl
    · rw [if_neg (by omega)]
  intro i hi
  match i, hi with
  | 0, _ =>
    simp only [List.getD_cons_zero]
    rw [← hch 0 (by decide)]
    exact or_glyph_mod _ _ (hg 0)
  | 1, _ =>
    simp only [List.getD_cons_zero, List.getD_cons_succ]
    rw [← hch 1 (by decide)]
    exact or_glyph_mod _ _ (hg 1)
  | 2, _ =>
    simp only [List.getD_cons_zero, List.getD_cons_succ]
    rw [← hch 2 (by decide)]
    exact or_glyph_mod _ _ (hg 2)
  | 3, _ =>
    simp only [List.getD_cons_zero, List.getD_cons_succ]
    rw [← hch 3 (by decide)]
    exact Nat.mod_eq_of_lt (hg 3)
  | 4, _ =>
    simp only [List.getD_cons_zero, List.getD_cons_succ]
    rw [← hch 4 (by decide)]
    exact Nat.mod_eq_of_lt (hg 4)
  | 5, _ =>
    simp only [List.getD_cons_zero, List.getD_cons_succ]
    rw [← hch 5 (by decide)]
    exact Nat.mod_eq_of_lt (hg 5)

theorem print_int_digits_nonneg_witness :
    (∃ t, spiDriver.print_int 314 = some t
      ∧ (∀ i, i < 6 → t.buf i % 128 =
          if 6 ≤ i + (Nat.log 10 (314 : Int).natAbs + 1) then
            digitGlyph ((314 : Int).natAbs / 10 ^ (5 - i) % 10)
          else 0x00)
      ∧ (format6li 314).length = 6
      ∧ snprintf6li (DISPLAY_SIZE + 1) 314 = format6li 314 ++ [0])
    ∧ (spiDriver.print_int 314).map (fun t => t.buffer.map (fun b => b % 128))
        = some [0x00, 0x00, 0x00, 0x7a, 0x60, 0x63] :=
  ⟨print_int_digits_nonneg spiDriver 0x80 0x7D 0x60 0x3e 0xfa 0x63 rfl 314 (by decide)
    (by decide), by decide⟩

/-- C8: the code misses the claim for every negative `n`: `print(int32_t)` passes the
`int32_t` to the conversion `%li`, which reads a `long`; with a 64-bit `long` the value
read for `n = -42` is `4294967254`, its ten digits are cut to `429496`, and the buffer
shows the glyphs of `4`, `2`, `9`, `4`, `9`, `6` instead of three blanks, the `'-'`
glyph `0x02` and the glyphs of `4` and `2`; likewise `-1` shows `429496` and `-99999`
shows `429486`. -/
theorem print_int_negative_misformatted :
    vaLong (-42) = 4294967254
    ∧ format6li (vaLong (-42)) = [52, 50, 57, 52, 57, 54, 55, 50, 53, 52]
    ∧ snprintf6li (DISPLAY_SIZE + 1) (-42) = [52, 50, 57, 52, 57, 54, 0]
    ∧ (spiDriver.print_int (-42)).map (fun t => t.buffer)
        = some [0xe3, 0x3e, 0x7b, 0x63, 0x7b, 0x5f]
    ∧ (spiDriver.print_int (-42)).map (fun t => t.buffer.map (fun b => b % 128))
        ≠ some [0x00, 0x00, 0x00, 0x02, 0x63, 0x3e]
    ∧ format6li (-42) = [32, 32, 32, 45, 52, 50]
    ∧ (spiDriver.print_int (-1)).map (fun t => t.buffer.map (fun b => b % 128))
        = some [0x63, 0x3e, 0x7b, 0x63, 0x7b, 0x5f]
    ∧ (spiDriver.print_int (-99999)).map (fun t => t.buffer.map (fun b => b % 128))
        = some [0x63, 0x3e, 0x7b, 0x63, 0x7f, 0x5f] := by
  decide

/-! ## `print(float, uint8_t)` -/

theorem print_float_eq (s : HT1621) (num : CFloat) (p : Nat) :
    s.print_float num p = (num.scaleToInt32 (clampPrecision num p)).bind fun k =>
      (s.lettersBufferClear.print_int (clampNum k)).map fun t =>
        (t.decimalSeparator (clampPrecision num p)).wrBuffer := by
  have hp : (if (num.geZero = true) ∧ p > MAX_POSITIVE_PRECISION then MAX_POSITIVE_PRECISION
      else if (num.ltZero = true) ∧ p > MAX_NEGATIVE_PRECISION then MAX_NEGATIVE_PRECISION
      else p) = clampPrecision num p := by
    unfold clampPrecision MAX_POSITIVE_PRECISION MAX_NEGATIVE_PRECISION
    have hx : num.geZero = true → num.ltZero = false := by
      cases num with
      | finite m e => simp [CFloat.geZero, CFloat.ltZero]
      | inf negative => cases negative <;> simp [CFloat.geZero, CFloat.ltZero]
      | nan => simp [CFloat.geZero]
    cases hg : num.geZero <;> cases hl : num.ltZero
    · simp
    · simp [Nat.min_def]; split_ifs <;> omega
    · simp [Nat.min_def]; split_ifs <;> omega
    · exact absurd (hx hg) (by simp [hl])
  unfold HT1621.print_float
  simp only [hp, clampNum_eq]

theorem lettersBufferClear_eq (s : HT1621) (b0 b1 b2 b3 b4 b5 : Nat)
    (hb : s.buffer = [b0, b1, b2, b3, b4, b5]) :
    s.lettersBufferClear = { s with buffer :=
      [b0 &&& 128, b1 &&& 128, b2 &&& 128, b3 &&& 128, b4 &&& 128, b5 &&& 128] } := by
  obtain ⟨cs, sck, mosi, bl, spi, buf, tr⟩ := s
  simp only at hb
  subst hb
  simp [HT1621.lettersBufferClear, HT1621.forLoop, HT1621.lettersBufferClearBody,
    HT1621.setBuf, HT1621.buf, DISPLAY_SIZE, DOT_SEG, BATTERY_SEG]

theorem and_127_of_lt (g : Nat) (hg : g < 128) : g &&& 127 = g := by
  rw [show (127 : Nat) = 2 ^ 7 - 1 from rfl, Nat.and_pow_two_sub_one_eq_mod]
  exact Nat.mod_eq_of_lt hg

theorem and_128_idem (x : Nat) : (x &&& 128) &&& 128 = x &&& 128 := by
  rw [Nat.and_assoc, Nat.and_self]

theorem wrBuffer_buffer (s : HT1621) : s.wrBuffer.buffer = s.buffer := by
  rw [wrBuffer_eq, wrBytes_frame]

theorem print_float_result (s : HT1621) (b0 b1 b2 b3 b4 b5 : Nat)
    (hb : s.buffer = [b0, b1, b2, b3, b4, b5]) (num : CFloat) (p : Nat) (k : Int)
    (hk : num.scaleToInt32 (clampPrecision num p) = some k) :
    s.print_float num p = some (HT1621.wrBuffer (HT1621.decimalSeparator
      (HT1621.wrBuffer { s with buffer :=
        [b0 &&& 128 ||| glyphOf (printedChar k 0),
         b1 &&& 128 ||| glyphOf (printedChar k 1),
         b2 &&& 128 ||| glyphOf (printedChar k 2),
         glyphOf (printedChar k 3), glyphOf (printedChar k 4),
         glyphOf (printedChar k 5)] }) (clampPrecision num p))) := by
  have hl := lettersBufferClear_eq s b0 b1 b2 b3 b4 b5 hb
  have hv := print_int_result { s with buffer :=
      [b0 &&& 128, b1 &&& 128, b2 &&& 128, b3 &&& 128, b4 &&& 128, b5 &&& 128] }
    (clampNum k) (b0 &&& 128) (b1 &&& 128) (b2 &&& 128) (b3 &&& 128) (b4 &&& 128)
    (b5 &&& 128) rfl
  simp only [printedChar_clampNum, and_128_idem] at hv
  rw [print_float_eq, hk, Option.some_bind, hl, hv]
  rfl

/-- Effect of `print(float, precision)` when the conversion to `int32_t` is defined
(`scaleToInt32` yields the truncated scaled value `k`): the call returns, and its
buffer is the buffer of `print(k)` with the dot bit of `buffer[6 - p]` set when the
clamped precision `p` is in `1..3`. -/
theorem print_float_buffer (s : HT1621) (b0 b1 b2 b3 b4 b5 : Nat)
    (hb : s.buffer = [b0, b1, b2, b3, b4, b5]) (num : CFloat) (p : Nat) (k : Int)
    (hk : num.scaleToInt32 (clampPrecision num p) = some k) :
    ∃ t u, s.print_float num p = some t ∧ s.print_int k = some u
      ∧ t.buffer = withDot u.buffer (clampPrecision num p) := by
  refine ⟨_, _, print_float_result s b0 b1 b2 b3 b4 b5 hb num p k hk,
    print_int_result s k b0 b1 b2 b3 b4 b5 hb, ?_⟩
  have hg := fun j => glyphOf_lt (printedChar k j)
  have h3 := and_127_of_lt _ (hg 3)
  have h4 := and_127_of_lt _ (hg 4)
  have h5 := and_127_of_lt _ (hg 5)
  rw [wrBuffer_buffer, wrBuffer_buffer]
  unfold withDot HT1621.decimalSeparator
  have hp : clampPrecision num p = 0 ∨ clampPrecision num p = 1 ∨ clampPrecision num p = 2
      ∨ clampPrecision num p = 3 ∨ 3 < clampPrecision num p := by omega
  rcases hp with h | h | h | h | h
  · simp [h, HT1621.dotsBufferClear, HT1621.setBuf, HT1621.buf, DOT_SEG, wrBuffer_buffer,
      h3, h4, h5]
  · simp [h, HT1621.dotsBufferClear, HT1621.setBuf, HT1621.buf, DOT_SEG, DISPLAY_SIZE,
      wrBuffer_buffer, h3, h4, h5]
  · simp [h, HT1621.dotsBufferClear, HT1621.setBuf, HT1621.buf, DOT_SEG, DISPLAY_SIZE,
      wrBuffer_buffer, h3, h4, h5]
  · simp [h, HT1621.dotsBufferClear, HT1621.setBuf, HT1621.buf, DOT_SEG, DISPLAY_SIZE,
      wrBuffer_buffer, h3, h4, h5]
  · have h2 : ¬ (1 ≤ clampPrecision num p ∧ clampPrecision num p ≤ 3) := by omega
    have h1 : clampPrecision num p = 0 ∨ clampPrecision num p > 3 := Or.inr h
    rw [if_pos h1, if_neg h2]
    simp [HT1621.dotsBufferClear, HT1621.setBuf, HT1621.buf, DOT_SEG, wrBuffer_buffer,
      h3, h4, h5]

/-! ## Inputs on which the code leaves the result undefined, and the rest -/

theorem strToAscii_blank (c : Int) (hc : c < 0x20 ∨ 0x60 < c) : strToAscii c = some 0x00 := by
  have h := strToAscii_eq_glyphOf c (by omega)
  rw [h]
  unfold glyphOf
  rw [if_neg (by omega)]

theorem strToAscii_blank_witness :
    strToAscii 0x7A = some 0x00 ∧ strToAscii (-3) = some 0x00 ∧ strToAscii 0x1F = some 0x00 :=
  ⟨strToAscii_blank 0x7A (by decide), strToAscii_blank (-3) (by decide),
   strToAscii_blank 0x1F (by decide)⟩

/-- C6: the code misses the claim at the first character above the table: for
`c = 0x60` neither guard of `strToAscii` fires (`0x60 - ' ' = 64` is not `> 64`), so it
returns `ascii[64]`, one past the last entry of the 64-entry table, instead of the
blank mask. -/
theorem strToAscii_reads_past_table :
    (0x5F : Int) < 0x60 ∧ ascii.length = 64 ∧ ¬ ((0x60 : Int) < 0x20)
    ∧ ¬ ((0x60 : Int) - 0x20 > (ascii.length : Int))
    ∧ ascii[((0x60 : Int) - 0x20).toNat]? = none
    ∧ strToAscii 0x60 = none := by
  decide

/-- C5: the code misses the claim for a string holding the character `0x60` in one of
its first six positions: `print` calls `strToAscii(0x60)`, which reads `ascii[64]`
outside the glyph table, so no buffer content is defined for that position. -/
theorem print_str_reads_past_table (s : HT1621) :
    s.print_str [0x60] = none ∧ s.print_str [72, 69, 76, 76, 79, 0x60] = none := by
  constructor
  · exact print_str_96 s
  · simp [HT1621.print_str, HT1621.forLoop, HT1621.printStrBody, strlen, strToAscii_96,
      DISPLAY_SIZE]

theorem print_str_buffer_witness :
    ∃ t, spiDriver.print_str [72, 69, 76, 76, 79] = some t
      ∧ (∀ i, i < 6 → t.buf i % 128
          = if i < strlen [72, 69, 76, 76, 79] then glyphOf (([72, 69, 76, 76, 79] : List Int).getD i 0)
            else 0)
      ∧ (t.buf 3).testBit 7 = false ∧ (t.buf 4).testBit 7 = false
      ∧ (t.buf 5).testBit 7 = false
      ∧ (t.buf 0).testBit 7 = (0x80).testBit 7 ∧ (t.buf 1).testBit 7 = (0x7D).testBit 7
      ∧ (t.buf 2).testBit 7 = (0x60).testBit 7 :=
  print_str_buffer spiDriver [72, 69, 76, 76, 79] 0x80 0x7D 0x60 0x3e 0xfa 0x63 rfl (by decide)

theorem print_str_hello :
    (spiDriver.print_str [72, 69, 76, 76, 79]).map (fun t => t.buffer.map (fun b => b % 128))
      = some [0x47, 0x1f, 0x0d, 0x0d, 0x4e, 0x00] := by
  decide

theorem print_int_clampNum (s : HT1621) (n : Int) :
    s.print_int n = s.print_int (clampNum n) := by
  rw [print_int_eq, print_int_eq, clampNum_idem]

/-- Clamping in `print(float, precision)` when the conversion to `int32_t` is defined:
a scaled value above `999999` gives the buffer of `print(999999)`, one below `-99999`
the buffer of `print(-99999)`, with the dot bit of the clamped precision. -/
theorem print_float_clamps (s : HT1621) (b0 b1 b2 b3 b4 b5 : Nat)
    (hb : s.buffer = [b0, b1, b2, b3, b4, b5]) (num : CFloat) (p : Nat) (k : Int)
    (hk : num.scaleToInt32 (clampPrecision num p) = some k)
    (hout : k < -99999 ∨ 999999 < k) :
    ∃ t u, s.print_float num p = some t
      ∧ s.print_int (if 999999 < k then 999999 else -99999) = some u
      ∧ t.buffer = withDot u.buffer (clampPrecision num p) := by
  obtain ⟨t, u, ht, hu, htu⟩ := print_float_buffer s b0 b1 b2 b3 b4 b5 hb num p k hk
  refine ⟨t, u, ht, ?_, htu⟩
  rw [← hu, print_int_clampNum s k, print_int_clampNum s (if 999999 < k then 999999 else -99999)]
  congr 1
  unfold clampNum
  split <;> omega

theorem print_float_clamps_witness :
    ∃ t u, spiDriver.print_float (CFloat.finite 5 20) 1 = some t
      ∧ spiDriver.print_int (if (999999 : Int) < 52428800 then 999999 else -99999) = some u
      ∧ t.buffer = withDot u.buffer (clampPrecision (CFloat.finite 5 20) 1) :=
  print_float_clamps spiDriver 0x80 0x7D 0x60 0x3e 0xfa 0x63 rfl (CFloat.finite 5 20) 1
    52428800 (by decide) (by decide)

theorem print_float_buffer_witness :
    (∃ t u, spiDriver.print_float (CFloat.finite 823549 (-18)) 2 = some t
      ∧ spiDriver.print_int 314 = some u
      ∧ t.buffer = withDot u.buffer (clampPrecision (CFloat.finite 823549 (-18)) 2))
    ∧ (spiDriver.print_float (CFloat.finite 823549 (-18)) 2).map (fun t => t.buffer)
        = some [0x80, 0x00, 0x00, 0x7a, 0x60 ||| 0x80, 0x63] :=
  ⟨print_float_buffer spiDriver 0x80 0x7D 0x60 0x3e 0xfa 0x63 rfl (CFloat.finite 823549 (-18)) 2
    314 (by decide), by decide⟩

/-- C9: the code misses the claim when the scaled value does not fit `int32_t`: for
`num = 10000000.0f` (`78125 * 2^7`) and precision 3 the product is `10^10`, its
conversion `(int32_t)(num * pow(10, precision))` is undefined, so the buffer is not
the one `print(k)` would give; `print(k)` itself is defined for every integer. -/
theorem print_float_scaled_value_overflows (s : HT1621) :
    clampPrecision (CFloat.finite 78125 7) 3 = 3
    ∧ (78125 : Int) * 10 ^ 3 * 2 ^ 7 = 10000000000
    ∧ CFloat.scaleToInt32 (CFloat.finite 78125 7) 3 = none
    ∧ s.print_float (CFloat.finite 78125 7) 3 = none
    ∧ (s.print_int 10000000000).isSome = true := by
  refine ⟨by decide, by decide, by decide, ?_, print_int_isSome s _⟩
  rw [print_float_eq]
  rfl

/-- C10: the code misses the claim outside the 32-bit range: for `num = 2^31` and for
`num = -2^32` with precision 0 the conversion to `int32_t` happens before the clamp
and is undefined, so neither `999999` nor `-99999` is guaranteed to be shown. -/
theorem print_float_outside_int32 (s : HT1621) :
    CFloat.scaleToInt32 (CFloat.finite 1 31) 0 = none
    ∧ s.print_float (CFloat.finite 1 31) 0 = none
    ∧ CFloat.scaleToInt32 (CFloat.finite (-1) 32) 0 = none
    ∧ s.print_float (CFloat.finite (-1) 32) 0 = none := by
  refine ⟨by decide, ?_, by decide, ?_⟩
  · rw [print_float_eq]; rfl
  · rw [print_float_eq]; rfl

/-! ## Overlay operations, flushing and chip select -/

theorem batteryBufferClear_eq (s : HT1621) (b0 b1 b2 b3 b4 b5 : Nat)
    (hb : s.buffer = [b0, b1, b2, b3, b4, b5]) :
    s.batteryBufferClear
      = { s with buffer := [b0 &&& 127, b1 &&& 127, b2 &&& 127, b3, b4, b5] } := by
  obtain ⟨cs, sck, mosi, bl, spi, buf, tr⟩ := s
  simp only at hb
  subst hb
  simp [HT1621.batteryBufferClear, HT1621.setBuf, HT1621.buf, BATTERY_SEG]

theorem dotsBufferClear_eq (s : HT1621) (b0 b1 b2 b3 b4 b5 : Nat)
    (hb : s.buffer = [b0, b1, b2, b3, b4, b5]) :
    s.dotsBufferClear
      = { s with buffer := [b0, b1, b2, b3 &&& 127, b4 &&& 127, b5 &&& 127] } := by
  obtain ⟨cs, sck, mosi, bl, spi, buf, tr⟩ := s
  simp only at hb
  subst hb
  simp [HT1621.dotsBufferClear, HT1621.setBuf, HT1621.buf, DOT_SEG]

theorem batteryLevel_result (s : HT1621) (level : tBatteryLevel) (b0 b1 b2 b3 b4 b5 : Nat)
    (hb : s.buffer = [b0, b1, b2, b3, b4, b5]) :
    s.batteryLevel level = HT1621.wrBuffer { s with buffer :=
      [b0 &&& 127 ||| batteryMask level 0, b1 &&& 127 ||| batteryMask level 1,
       b2 &&& 127 ||| batteryMask level 2, b3, b4, b5] } := by
  unfold HT1621.batteryLevel
  rw [batteryBufferClear_eq s b0 b1 b2 b3 b4 b5 hb]
  cases level <;> simp [HT1621.setBuf, HT1621.buf, BATTERY_SEG, batteryMask]

theorem decimalSeparator_result (s : HT1621) (p : Nat) (b0 b1 b2 b3 b4 b5 : Nat)
    (hb : s.buffer = [b0, b1, b2, b3, b4, b5]) :
    s.decimalSeparator p = { s with buffer :=
      [b0, b1, b2, b3 &&& 127 ||| dotMask p 3, b4 &&& 127 ||| dotMask p 4,
       b5 &&& 127 ||| dotMask p 5] } := by
  unfold HT1621.decimalSeparator
  rw [dotsBufferClear_eq s b0 b1 b2 b3 b4 b5 hb]
  have hp : p = 0 ∨ p = 1 ∨ p = 2 ∨ p = 3 ∨ 3 < p := by omega
  rcases hp with h | h | h | h | h
  · simp [h, dotMask]
  · simp [h, dotMask, HT1621.setBuf, HT1621.buf, DOT_SEG, DISPLAY_SIZE]
  · simp [h, dotMask, HT1621.setBuf, HT1621.buf, DOT_SEG, DISPLAY_SIZE]
  · simp [h, dotMask, HT1621.setBuf, HT1621.buf, DOT_SEG, DISPLAY_SIZE]
  · have h1 : p = 0 ∨ p > 3 := Or.inr h
    have h2 : ¬ (1 ≤ p ∧ p ≤ 3 ∧ 3 = 6 - p) := by omega
    have h3 : ¬ (1 ≤ p ∧ p ≤ 3 ∧ 4 = 6 - p) := by omega
    have h4 : ¬ (1 ≤ p ∧ p ≤ 3 ∧ 5 = 6 - p) := by omega
    simp only [dotMask, if_pos h1, if_neg h2, if_neg h3, if_neg h4, Nat.or_zero]

theorem clear_result (s : HT1621) (b0 b1 b2 b3 b4 b5 : Nat)
    (hb : s.buffer = [b0, b1, b2, b3, b4, b5]) :
    s.clear = HT1621.wrBuffer { s with buffer := [0, 0, 0, 0, 0, 0] } := by
  unfold HT1621.clear
  rw [batteryBufferClear_eq s b0 b1 b2 b3 b4 b5 hb]
  simp only []
  rw [clears_buffer _ (b0 &&& 127) (b1 &&& 127) (b2 &&& 127) b3 b4 b5 rfl]
  simp [and_127_and_128]

/-! ## Bit 7 and the low seven bits under the overlay masks -/

theorem and_127_mod (x : Nat) : (x &&& 127) % 128 = x % 128 := by
  rw [show (127 : Nat) = 2 ^ 7 - 1 from rfl, Nat.and_pow_two_sub_one_eq_mod]
  simp

theorem and_127_lt (x : Nat) : x &&& 127 < 128 := by
  rw [show (127 : Nat) = 2 ^ 7 - 1 from rfl, Nat.and_pow_two_sub_one_eq_mod]
  exact Nat.mod_lt _ (by decide)

theorem and_127_testBit (x : Nat) : (x &&& 127).testBit 7 = false :=
  testBit_7_of_lt _ (and_127_lt x)

theorem or_128_of_lt (y : Nat) (hy : y < 128) : y ||| 128 = y + 128 := by
  rw [Nat.lor_comm, or_eq_add_of_dvd 128 y 7 (by decide) (by omega)]
  omega

theorem mask_or (x m : Nat) (hm : m = 0 ∨ m = 128) :
    (x &&& 127 ||| m) % 128 = x % 128
    ∧ (x &&& 127 ||| m).testBit 7 = decide (m = 128)
    ∧ x &&& 127 ||| m < 256 := by
  have hlt := and_127_lt x
  have hmod := and_127_mod x
  rcases hm with h | h
  · subst h
    simp only [Nat.or_zero]
    exact ⟨hmod, by rw [and_127_testBit]; rfl, by omega⟩
  · subst h
    rw [or_128_of_lt _ hlt]
    refine ⟨by omega, ?_, by omega⟩
    simp [Nat.testBit_to_div_mod]
    omega

theorem batteryMask_cases (level : tBatteryLevel) (i : Nat) :
    batteryMask level i = 0 ∨ batteryMask level i = 128 := by
  unfold batteryMask
  split <;> simp

theorem dotMask_cases (p i : Nat) : dotMask p i = 0 ∨ dotMask p i = 128 := by
  unfold dotMask
  split <;> simp

theorem wrBytes_trace_frame (s : HT1621) (ptr : List Nat) :
    (s.wrBytes ptr).trace = s.trace ++ frameEvents s ptr.reverse := by
  rw [wrBytes_trace]
  simp [frameEvents, List.append_assoc]

theorem wrBuffer_trace_frame (s : HT1621) (b0 b1 b2 b3 b4 b5 : Nat)
    (hb : s.buffer = [b0, b1, b2, b3, b4, b5])
    (h0 : b0 < 256) (h1 : b1 < 256) (h2 : b2 < 256)
    (h3 : b3 < 256) (h4 : b4 < 256) (h5 : b5 < 256) :
    s.wrBuffer.trace = s.trace ++ frameEvents s (dataFrame s.buffer) := by
  rw [wrBuffer_eq, wrBytes_trace_frame]
  simp only [HT1621.buf, dataFrame, hb, List.getD_cons_zero, List.getD_cons_succ]
  rw [dataSeq_arr_reverse b0 b1 b2 b3 b4 b5 h0 h1 h2 h3 h4 h5]

theorem frameBuffer_dataFrame (b0 b1 b2 b3 b4 b5 : Nat)
    (h0 : b0 < 256) (h1 : b1 < 256) (h2 : b2 < 256)
    (h3 : b3 < 256) (h4 : b4 < 256) (h5 : b5 < 256) :
    frameBuffer (dataFrame [b0, b1, b2, b3, b4, b5]) = [b0, b1, b2, b3, b4, b5] := by
  simp only [frameBuffer, dataFrame, List.getD_cons_zero, List.getD_cons_succ]
  rw [unpackData_frame _ _ _ (by omega) (by omega) (by omega)]
  simp only [List.cons.injEq, and_true]
  refine ⟨?_, ?_, ?_, ?_, ?_, ?_⟩ <;> omega

theorem wrBuffer_flags (s : HT1621) :
    s.wrBuffer.pCsPin = s.pCsPin ∧ s.wrBuffer.pSckPin = s.pSckPin
    ∧ s.wrBuffer.pMosiPin = s.pMosiPin ∧ s.wrBuffer.pSpiInterface = s.pSpiInterface := by
  rw [wrBuffer_eq, wrBytes_frame]
  exact ⟨rfl, rfl, rfl, rfl⟩

theorem frameEvents_congr (s t : HT1621) (frame : List Nat) (h1 : t.pCsPin = s.pCsPin)
    (h2 : t.pSckPin = s.pSckPin) (h3 : t.pMosiPin = s.pMosiPin)
    (h4 : t.pSpiInterface = s.pSpiInterface) : frameEvents t frame = frameEvents s frame := by
  unfold frameEvents
  rw [h1, h2, h3, h4]

/-- C11 (as amended): for every `p` and every prior six-byte buffer,
`decimalSeparator(p)` first clears bit 7 of `buffer[3]`, `buffer[4]`, `buffer[5]`; then,
for `p` in `1..3`, it sets the dot bit at index `DISPLAY_SIZE - p = 6 - p`, which is
then the only dot bit set; for `p = 0` or `p > 3` all three dot bits stay cleared. -/
theorem decimalSeparator_dot_bits (s : HT1621) (b0 b1 b2 b3 b4 b5 : Nat)
    (hb : s.buffer = [b0, b1, b2, b3, b4, b5]) (p : Nat) :
    dotBits s.dotsBufferClear = []
    ∧ s.decimalSeparator p
        = (if p = 0 ∨ p > 3 then s.dotsBufferClear
           else s.dotsBufferClear.setBuf (DISPLAY_SIZE - p)
             (s.dotsBufferClear.buf (DISPLAY_SIZE - p) ||| DOT_SEG))
    ∧ DISPLAY_SIZE = 6
    ∧ dotBits (s.decimalSeparator p) = (if 1 ≤ p ∧ p ≤ 3 then [6 - p] else []) := by
  have m3 := mask_or b3 (dotMask p 3) (dotMask_cases p 3)
  have m4 := mask_or b4 (dotMask p 4) (dotMask_cases p 4)
  have m5 := mask_or b5 (dotMask p 5) (dotMask_cases p 5)
  refine ⟨?_, rfl, rfl, ?_⟩
  · rw [dotsBufferClear_eq s b0 b1 b2 b3 b4 b5 hb]
    simp only [dotBits, HT1621.buf, List.getD_cons_zero, List.getD_cons_succ, List.filter,
      and_127_testBit]
  · rw [decimalSeparator_result s p b0 b1 b2 b3 b4 b5 hb]
    simp only [dotBits, HT1621.buf, List.getD_cons_zero, List.getD_cons_succ, List.filter,
      m3.2.1, m4.2.1, m5.2.1]
    have hp : p = 0 ∨ p = 1 ∨ p = 2 ∨ p = 3 ∨ 3 < p := by omega
    rcases hp with h | h | h | h | h
    · simp [h, dotMask]
    · simp [h, dotMask]
    · simp [h, dotMask]
    · simp [h, dotMask]
    · have h2 : ¬ (1 ≤ p ∧ p ≤ 3 ∧ 3 = 6 - p) := by omega
      have h3 : ¬ (1 ≤ p ∧ p ≤ 3 ∧ 4 = 6 - p) := by omega
      have h4 : ¬ (1 ≤ p ∧ p ≤ 3 ∧ 5 = 6 - p) := by omega
      have h5 : ¬ (1 ≤ p ∧ p ≤ 3) := by omega
      simp [dotMask, h2, h3, h4, h5]

theorem decimalSeparator_dot_bits_witness :
    dotBits spiDriver.dotsBufferClear = []
    ∧ spiDriver.decimalSeparator 2
        = (if 2 = 0 ∨ 2 > 3 then spiDriver.dotsBufferClear
           else spiDriver.dotsBufferClear.setBuf (DISPLAY_SIZE - 2)
             (spiDriver.dotsBufferClear.buf (DISPLAY_SIZE - 2) ||| DOT_SEG))
    ∧ DISPLAY_SIZE = 6
    ∧ dotBits (spiDriver.decimalSeparator 2) = (if 1 ≤ 2 ∧ 2 ≤ 3 then [6 - 2] else []) :=
  decimalSeparator_dot_bits spiDriver 0x80 0x7D 0x60 0x3e 0xfa 0x63 rfl 2

/-- C11 (as stated) fails: after `decimalSeparator(1)` the dot bit of `buffer[5 - 1]` is
clear and the one of `buffer[6 - 1]` is set; after `decimalSeparator(3)` the dot bit set
is the one of `buffer[3]`, and `buffer[5 - 3]` is left as it was. -/
theorem decimalSeparator_index_counterexample :
    ((spiDriver.decimalSeparator 1).buf (5 - 1)).testBit 7 = false
    ∧ ((spiDriver.decimalSeparator 1).buf (6 - 1)).testBit 7 = true
    ∧ dotBits (spiDriver.decimalSeparator 1) ≠ [5 - 1]
    ∧ dotBits (spiDriver.decimalSeparator 3) = [3]
    ∧ (spiDriver.decimalSeparator 3).buf (5 - 3) = spiDriver.buf (5 - 3) := by
  decide

/-- C12: for every prior six-byte buffer, after `batteryLevel(level)` the battery bits
(bit 7 of `buffer[0]`, `buffer[1]`, `buffer[2]`) that are set are: none for NONE,
`buffer[2]` for LOW, `buffer[1]` and `buffer[2]` for MEDIUM, all three for FULL; so
their number is 0, 1, 2, 3 whatever the previous level, and each level's set strictly
contains the next lower level's set. -/
theorem batteryLevel_bits (s : HT1621) (b0 b1 b2 b3 b4 b5 : Nat)
    (hb : s.buffer = [b0, b1, b2, b3, b4, b5]) :
    batteryBits (s.batteryLevel tBatteryLevel.BATTERY_NONE) = []
    ∧ batteryBits (s.batteryLevel tBatteryLevel.BATTERY_LOW) = [2]
    ∧ batteryBits (s.batteryLevel tBatteryLevel.BATTERY_MEDIUM) = [1, 2]
    ∧ batteryBits (s.batteryLevel tBatteryLevel.BATTERY_FULL) = [0, 1, 2]
    ∧ (batteryBits (s.batteryLevel tBatteryLevel.BATTERY_NONE)).length = 0
    ∧ (batteryBits (s.batteryLevel tBatteryLevel.BATTERY_LOW)).length = 1
    ∧ (batteryBits (s.batteryLevel tBatteryLevel.BATTERY_MEDIUM)).length = 2
    ∧ (batteryBits (s.batteryLevel tBatteryLevel.BATTERY_FULL)).length = 3
    ∧ batteryBits (s.batteryLevel tBatteryLevel.BATTERY_NONE)
        ⊆ batteryBits (s.batteryLevel tBatteryLevel.BATTERY_LOW)
    ∧ batteryBits (s.batteryLevel tBatteryLevel.BATTERY_LOW)
        ⊆ batteryBits (s.batteryLevel tBatteryLevel.BATTERY_MEDIUM)
    ∧ batteryBits (s.batteryLevel tBatteryLevel.BATTERY_MEDIUM)
        ⊆ batteryBits (s.batteryLevel tBatteryLevel.BATTERY_FULL) := by
  have h : ∀ level, batteryBits (s.batteryLevel level)
      = [0, 1, 2].filter (fun i => decide (batteryMask level i = 128)) := by
    intro level
    have m0 := mask_or b0 (batteryMask level 0) (batteryMask_cases level 0)
    have m1 := mask_or b1 (batteryMask level 1) (batteryMask_cases level 1)
    have m2 := mask_or b2 (batteryMask level 2) (batteryMask_cases level 2)
    rw [batteryLevel_result s level b0 b1 b2 b3 b4 b5 hb]
    simp only [batteryBits, HT1621.buf, wrBuffer_buffer, List.getD_cons_zero,
      List.getD_cons_succ, List.filter, m0.2.1, m1.2.1, m2.2.1]
  have hn : batteryBits (s.batteryLevel tBatteryLevel.BATTERY_NONE) = [] := by
    rw [h]; decide
  have hl : batteryBits (s.batteryLevel tBatteryLevel.BATTERY_LOW) = [2] := by
    rw [h]; decide
  have hm : batteryBits (s.batteryLevel tBatteryLevel.BATTERY_MEDIUM) = [1, 2] := by
    rw [h]; decide
  have hf : batteryBits (s.batteryLevel tBatteryLevel.BATTERY_FULL) = [0, 1, 2] := by
    rw [h]; decide
  rw [hn, hl, hm, hf]
  simp

theorem batteryLevel_bits_witness :
    batteryBits (spiDriver.batteryLevel tBatteryLevel.BATTERY_NONE) = []
    ∧ batteryBits (spiDriver.batteryLevel tBatteryLevel.BATTERY_LOW) = [2]
    ∧ batteryBits (spiDriver.batteryLevel tBatteryLevel.BATTERY_MEDIUM) = [1, 2]
    ∧ batteryBits (spiDriver.batteryLevel tBatteryLevel.BATTERY_FULL) = [0, 1, 2] :=
  ⟨(batteryLevel_bits spiDriver 0x80 0x7D 0x60 0x3e 0xfa 0x63 rfl).1,
   (batteryLevel_bits spiDriver 0x80 0x7D 0x60 0x3e 0xfa 0x63 rfl).2.1,
   (batteryLevel_bits spiDriver 0x80 0x7D 0x60 0x3e 0xfa 0x63 rfl).2.2.1,
   (batteryLevel_bits spiDriver 0x80 0x7D 0x60 0x3e 0xfa 0x63 rfl).2.2.2.1⟩

/-- C13: for every prior six-byte buffer, after `clear()` all six buffer bytes are
`0x00` and the data frame the call transmits is `0xA0` followed by seven `0x00`
bytes. -/
theorem clear_blank (s : HT1621) (b0 b1 b2 b3 b4 b5 : Nat)
    (hb : s.buffer = [b0, b1, b2, b3, b4, b5]) :
    s.clear.buffer = [0x00, 0x00, 0x00, 0x00, 0x00, 0x00]
    ∧ s.clear.trace
        = s.trace ++ frameEvents s [0xA0, 0x00, 0x00, 0x00, 0x00, 0x00, 0x00, 0x00]
    ∧ dataFrame s.clear.buffer = [0xA0, 0x00, 0x00, 0x00, 0x00, 0x00, 0x00, 0x00] := by
  have hbuf : s.clear.buffer = [0x00, 0x00, 0x00, 0x00, 0x00, 0x00] := by
    rw [clear_result s b0 b1 b2 b3 b4 b5 hb, wrBuffer_buffer]
  have hd : dataFrame [0x00, 0x00, 0x00, 0x00, 0x00, 0x00]
      = [0xA0, 0x00, 0x00, 0x00, 0x00, 0x00, 0x00, 0x00] := by decide
  refine ⟨hbuf, ?_, by rw [hbuf, hd]⟩
  rw [clear_result s b0 b1 b2 b3 b4 b5 hb,
    wrBuffer_trace_frame _ 0 0 0 0 0 0 rfl (by decide) (by decide) (by decide) (by decide)
      (by decide) (by decide)]
  simp only [hd]
  rfl

theorem clear_blank_witness :
    spiDriver.clear.buffer = [0x00, 0x00, 0x00, 0x00, 0x00, 0x00]
    ∧ spiDriver.clear.trace
        = spiDriver.trace ++ frameEvents spiDriver [0xA0, 0x00, 0x00, 0x00, 0x00, 0x00, 0x00, 0x00]
    ∧ dataFrame spiDriver.clear.buffer = [0xA0, 0x00, 0x00, 0x00, 0x00, 0x00, 0x00, 0x00] :=
  clear_blank spiDriver 0x80 0x7D 0x60 0x3e 0xfa 0x63 rfl

/-- C14: overlay operations keep everything that is not their own overlay: for every
level and prior six-byte buffer `batteryLevel(level)` leaves the low seven bits of all
six bytes and bit 7 of `buffer[3..5]` unchanged; for every `p`, `decimalSeparator(p)`
leaves the low seven bits of all six bytes and bit 7 of `buffer[0..2]` unchanged. -/
theorem overlay_ops_preserve (s : HT1621) (b0 b1 b2 b3 b4 b5 : Nat)
    (hb : s.buffer = [b0, b1, b2, b3, b4, b5]) (level : tBatteryLevel) (p : Nat) :
    (∀ i, i < 6 → (s.batteryLevel level).buf i % 128 = s.buf i % 128)
    ∧ (∀ i, 3 ≤ i → i < 6 →
        ((s.batteryLevel level).buf i).testBit 7 = (s.buf i).testBit 7)
    ∧ (∀ i, i < 6 → (s.decimalSeparator p).buf i % 128 = s.buf i % 128)
    ∧ (∀ i, i < 3 → ((s.decimalSeparator p).buf i).testBit 7 = (s.buf i).testBit 7) := by
  have m0 := mask_or b0 (batteryMask level 0) (batteryMask_cases level 0)
  have m1 := mask_or b1 (batteryMask level 1) (batteryMask_cases level 1)
  have m2 := mask_or b2 (batteryMask level 2) (batteryMask_cases level 2)
  have m3 := mask_or b3 (dotMask p 3) (dotMask_cases p 3)
  have m4 := mask_or b4 (dotMask p 4) (dotMask_cases p 4)
  have m5 := mask_or b5 (dotMask p 5) (dotMask_cases p 5)
  rw [batteryLevel_result s level b0 b1 b2 b3 b4 b5 hb,
    decimalSeparator_result s p b0 b1 b2 b3 b4 b5 hb]
  simp only [HT1621.buf, wrBuffer_buffer, hb]
  refine ⟨?_, ?_, ?_, ?_⟩
  · intro i hi
    match i, hi with
    | 0, _ => exact m0.1
    | 1, _ => exact m1.1
    | 2, _ => exact m2.1
    | 3, _ => rfl
    | 4, _ => rfl
    | 5, _ => rfl
  · intro i h3 hi
    match i, h3, hi with
    | 3, _, _ => rfl
    | 4, _, _ => rfl
    | 5, _, _ => rfl
  · intro i hi
    match i, hi with
    | 0, _ => rfl
    | 1, _ => rfl
    | 2, _ => rfl
    | 3, _ => exact m3.1
    | 4, _ => exact m4.1
    | 5, _ => exact m5.1
  · intro i hi
    match i, hi with
    | 0, _ => rfl
    | 1, _ => rfl
    | 2, _ => rfl

theorem overlay_ops_preserve_witness :
    (spiDriver.batteryLevel tBatteryLevel.BATTERY_FULL).buf 1 % 128 = spiDriver.buf 1 % 128
    ∧ ((spiDriver.batteryLevel tBatteryLevel.BATTERY_FULL).buf 4).testBit 7
        = (spiDriver.buf 4).testBit 7
    ∧ (spiDriver.decimalSeparator 2).buf 4 % 128 = spiDriver.buf 4 % 128
    ∧ ((spiDriver.decimalSeparator 2).buf 0).testBit 7 = (spiDriver.buf 0).testBit 7 :=
  ⟨(overlay_ops_preserve spiDriver 0x80 0x7D 0x60 0x3e 0xfa 0x63 rfl
      tBatteryLevel.BATTERY_FULL 2).1 1 (by decide),
   (overlay_ops_preserve spiDriver 0x80 0x7D 0x60 0x3e 0xfa 0x63 rfl
      tBatteryLevel.BATTERY_FULL 2).2.1 4 (by decide) (by decide),
   (overlay_ops_preserve spiDriver 0x80 0x7D 0x60 0x3e 0xfa 0x63 rfl
      tBatteryLevel.BATTERY_FULL 2).2.2.1 4 (by decide),
   (overlay_ops_preserve spiDriver 0x80 0x7D 0x60 0x3e 0xfa 0x63 rfl
      tBatteryLevel.BATTERY_FULL 2).2.2.2 0 (by decide)⟩

theorem and_128_or_lt (x g : Nat) (hg : g < 128) : x &&& 128 ||| g < 256 := by
  rw [and_128]
  cases x.testBit 7
  · simp; omega
  · rw [if_pos rfl, or_eq_add_of_dvd 128 g 7 (by decide) (by omega)]
    omega

theorem flush_of_wrBuffer (s u : HT1621) (pre : List Event) (a0 a1 a2 a3 a4 a5 : Nat)
    (hu : u.buffer = [a0, a1, a2, a3, a4, a5])
    (h0 : a0 < 256) (h1 : a1 < 256) (h2 : a2 < 256)
    (h3 : a3 < 256) (h4 : a4 < 256) (h5 : a5 < 256)
    (htr : u.trace = s.trace ++ pre) :
    u.wrBuffer.trace = s.trace ++ pre ++ frameEvents u.wrBuffer (dataFrame u.wrBuffer.buffer)
    ∧ frameBuffer (dataFrame u.wrBuffer.buffer) = u.wrBuffer.buffer := by
  have hf := wrBuffer_flags u
  rw [wrBuffer_trace_frame u a0 a1 a2 a3 a4 a5 hu h0 h1 h2 h3 h4 h5, wrBuffer_buffer,
    frameEvents_congr u u.wrBuffer _ hf.1 hf.2.1 hf.2.2.1 hf.2.2.2, htr, hu]
  exact ⟨rfl, frameBuffer_dataFrame a0 a1 a2 a3 a4 a5 h0 h1 h2 h3 h4 h5⟩

/-- Flush on the arguments for which C++ defines the call (no `0x60` among the
characters read; scaled value within `int32_t`): each mutating public operation
returns with a trace whose last events are the transmission of the data frame that
encodes the whole final buffer from address 0, and decoding that frame gives the
final buffer. -/
theorem mutating_ops_flush (s : HT1621) (b0 b1 b2 b3 b4 b5 : Nat)
    (hb : s.buffer = [b0, b1, b2, b3, b4, b5])
    (h3 : b3 < 256) (h4 : b4 < 256) (h5 : b5 < 256)
    (str : List Int) (hstr : ∀ i, i < 6 → i < strlen str → str.getD i 0 ≠ 0x60)
    (n : Int) (num : CFloat) (p : Nat) (k : Int)
    (hk : num.scaleToInt32 (clampPrecision num p) = some k) (level : tBatteryLevel) :
    (∃ t pre, s.print_str str = some t
      ∧ t.trace = s.trace ++ pre ++ frameEvents t (dataFrame t.buffer)
      ∧ frameBuffer (dataFrame t.buffer) = t.buffer)
    ∧ (∃ t pre, s.print_int n = some t
      ∧ t.trace = s.trace ++ pre ++ frameEvents t (dataFrame t.buffer)
      ∧ frameBuffer (dataFrame t.buffer) = t.buffer)
    ∧ (∃ t pre, s.print_float num p = some t
      ∧ t.trace = s.trace ++ pre ++ frameEvents t (dataFrame t.buffer)
      ∧ frameBuffer (dataFrame t.buffer) = t.buffer)
    ∧ (∃ pre, (s.batteryLevel level).trace
        = s.trace ++ pre ++ frameEvents (s.batteryLevel level)
            (dataFrame (s.batteryLevel level).buffer)
      ∧ frameBuffer (dataFrame (s.batteryLevel level).buffer) = (s.batteryLevel level).buffer)
    ∧ (∃ pre, s.clear.trace = s.trace ++ pre ++ frameEvents s.clear (dataFrame s.clear.buffer)
      ∧ frameBuffer (dataFrame s.clear.buffer) = s.clear.buffer) := by
  have gs := fun j => strGlyph_lt str j
  have gi := fun j => glyphOf_lt (printedChar n j)
  have gk := fun j => glyphOf_lt (printedChar k j)
  refine ⟨?_, ?_, ?_, ?_, ?_⟩
  · refine ⟨_, [], print_str_result s str b0 b1 b2 b3 b4 b5 hb hstr, ?_⟩
    exact flush_of_wrBuffer s _ [] _ _ _ _ _ _ rfl (and_128_or_lt _ _ (gs 0))
      (and_128_or_lt _ _ (gs 1)) (and_128_or_lt _ _ (gs 2)) (by have := gs 3; omega)
      (by have := gs 4; omega) (by have := gs 5; omega) (by simp)
  · refine ⟨_, [], print_int_result s n b0 b1 b2 b3 b4 b5 hb, ?_⟩
    exact flush_of_wrBuffer s _ [] _ _ _ _ _ _ rfl (and_128_or_lt _ _ (gi 0))
      (and_128_or_lt _ _ (gi 1)) (and_128_or_lt _ _ (gi 2)) (by have := gi 3; omega)
      (by have := gi 4; omega) (by have := gi 5; omega) (by simp)
  · have hd := decimalSeparator_result (HT1621.wrBuffer { s with buffer :=
        [b0 &&& 128 ||| glyphOf (printedChar k 0),
         b1 &&& 128 ||| glyphOf (printedChar k 1),
         b2 &&& 128 ||| glyphOf (printedChar k 2),
         glyphOf (printedChar k 3), glyphOf (printedChar k 4),
         glyphOf (printedChar k 5)] }) (clampPrecision num p) _ _ _ _ _ _
      (wrBuffer_buffer _)
    have ht := wrBuffer_trace_frame { s with buffer :=
        [b0 &&& 128 ||| glyphOf (printedChar k 0),
         b1 &&& 128 ||| glyphOf (printedChar k 1),
         b2 &&& 128 ||| glyphOf (printedChar k 2),
         glyphOf (printedChar k 3), glyphOf (printedChar k 4),
         glyphOf (printedChar k 5)] } _ _ _ _ _ _ rfl (and_128_or_lt _ _ (gk 0))
      (and_128_or_lt _ _ (gk 1)) (and_128_or_lt _ _ (gk 2)) (by have := gk 3; omega)
      (by have := gk 4; omega) (by have := gk 5; omega)
    have hfl := flush_of_wrBuffer s _ _ _ _ _ _ _ _ (congrArg HT1621.buffer hd)
      (and_128_or_lt _ _ (gk 0)) (and_128_or_lt _ _ (gk 1)) (and_128_or_lt _ _ (gk 2))
      (mask_or _ _ (dotMask_cases _ 3)).2.2 (mask_or _ _ (dotMask_cases _ 4)).2.2
      (mask_or _ _ (dotMask_cases _ 5)).2.2 ((congrArg HT1621.trace hd).trans ht)
    exact ⟨_, _, print_float_result s b0 b1 b2 b3 b4 b5 hb num p k hk, hfl⟩
  · rw [batteryLevel_result s level b0 b1 b2 b3 b4 b5 hb]
    exact ⟨[], flush_of_wrBuffer s _ [] _ _ _ _ _ _ rfl
      (mask_or _ _ (batteryMask_cases _ 0)).2.2 (mask_or _ _ (batteryMask_cases _ 1)).2.2
      (mask_or _ _ (batteryMask_cases _ 2)).2.2 h3 h4 h5 (by simp)⟩
  · rw [clear_result s b0 b1 b2 b3 b4 b5 hb]
    exact ⟨[], flush_of_wrBuffer s _ [] _ _ _ _ _ _ rfl (by decide) (by decide) (by decide)
      (by decide) (by decide) (by decide) (by simp)⟩

theorem mutating_ops_flush_witness :
    (∃ t pre, spiDriver.print_str [72, 69, 76, 76, 79] = some t
      ∧ t.trace = spiDriver.trace ++ pre ++ frameEvents t (dataFrame t.buffer)
      ∧ frameBuffer (dataFrame t.buffer) = t.buffer)
    ∧ (∃ t pre, spiDriver.print_int 314 = some t
      ∧ t.trace = spiDriver.trace ++ pre ++ frameEvents t (dataFrame t.buffer)
      ∧ frameBuffer (dataFrame t.buffer) = t.buffer)
    ∧ (∃ t pre, spiDriver.print_float (CFloat.finite 823549 (-18)) 2 = some t
      ∧ t.trace = spiDriver.trace ++ pre ++ frameEvents t (dataFrame t.buffer)
      ∧ frameBuffer (dataFrame t.buffer) = t.buffer)
    ∧ (∃ pre, (spiDriver.batteryLevel tBatteryLevel.BATTERY_LOW).trace
        = spiDriver.trace ++ pre ++ frameEvents (spiDriver.batteryLevel tBatteryLevel.BATTERY_LOW)
            (dataFrame (spiDriver.batteryLevel tBatteryLevel.BATTERY_LOW).buffer)
      ∧ frameBuffer (dataFrame (spiDriver.batteryLevel tBatteryLevel.BATTERY_LOW).buffer)
        = (spiDriver.batteryLevel tBatteryLevel.BATTERY_LOW).buffer)
    ∧ (∃ pre, spiDriver.clear.trace
        = spiDriver.trace ++ pre ++ frameEvents spiDriver.clear (dataFrame spiDriver.clear.buffer)
      ∧ frameBuffer (dataFrame spiDriver.clear.buffer) = spiDriver.clear.buffer) :=
  mutating_ops_flush spiDriver 0x80 0x7D 0x60 0x3e 0xfa 0x63 rfl (by decide) (by decide)
    (by decide) [72, 69, 76, 76, 79] (by decide) 314 (CFloat.finite 823549 (-18)) 2 314
    (by decide) tBatteryLevel.BATTERY_LOW

theorem clocked_no_cs (bits : List Bool) : ∀ e, e ∈ clocked bits → ∀ l, e ≠ Event.cs l := by
  induction bits with
  | nil => intro e he; simp [clocked] at he
  | cons b bs ih =>
    intro e he l
    simp only [clocked, List.mem_cons] at he
    rcases he with h | h | h | h
    · subst h; simp
    · subst h; simp
    · subst h; simp
    · exact ih e h l

/-- C16: with a chip-select callback configured, every `wrBytes` call (bulk transfer,
bit-banged or no transport, any length) adds to the trace chip-select LOW first and
chip-select HIGH last, with no other chip-select event: every clock, data or
bulk-transfer event of the call lies strictly between the two. -/
theorem wrBytes_chip_select_scope (s : HT1621) (ptr : List Nat) (hcs : s.pCsPin = true) :
    (s.wrBytes ptr).trace
      = s.trace ++ ([Event.cs LOW] ++ transferEvents s ptr.reverse ++ [Event.cs HIGH])
    ∧ (∀ e, e ∈ transferEvents s ptr.reverse → ∀ l, e ≠ Event.cs l)
    ∧ ([Event.cs LOW] ++ transferEvents s ptr.reverse ++ [Event.cs HIGH]).head?
        = some (Event.cs LOW)
    ∧ ([Event.cs LOW] ++ transferEvents s ptr.reverse ++ [Event.cs HIGH]).getLast?
        = some (Event.cs HIGH) := by
  refine ⟨?_, ?_, rfl, List.getLast?_concat _⟩
  · rw [wrBytes_trace, hcs]
    simp [csEvents, transferEvents]
  · intro e he l
    unfold transferEvents at he
    split at he
    · simp at he; subst he; simp
    · split at he
      · exact clocked_no_cs _ e he l
      · simp at he

theorem wrBytes_chip_select_scope_witness :
    (pinDriver.wrBytes []).trace
      = pinDriver.trace ++ ([Event.cs LOW] ++ transferEvents pinDriver [].reverse
          ++ [Event.cs HIGH])
    ∧ (spiDriver.wrBytes [0x01, 0xA5]).trace
      = spiDriver.trace ++ ([Event.cs LOW] ++ transferEvents spiDriver [0x01, 0xA5].reverse
          ++ [Event.cs HIGH])
    ∧ (spiDriver.wrBytes [0x01, 0xA5]).trace
      = [Event.cs false, Event.spi [0xA5, 0x01], Event.cs true] :=
  ⟨(wrBytes_chip_select_scope pinDriver [] rfl).1,
   (wrBytes_chip_select_scope spiDriver [0x01, 0xA5] rfl).1, by decide⟩

/-- C17: `displayOn()` transmits exactly one frame, the command frame of LCDON
(`0x06`), and `displayOff()` exactly one frame, the command frame of LCDOFF (`0x04`);
neither changes the display buffer. -/
theorem display_on_off_frames (s : HT1621) :
    s.displayOn.trace = s.trace ++ frameEvents s (cmdFrame 0x06)
    ∧ s.displayOff.trace = s.trace ++ frameEvents s (cmdFrame 0x04)
    ∧ s.displayOn.buffer = s.buffer
    ∧ s.displayOff.buffer = s.buffer
    ∧ LCDON = 0x06 ∧ LCDOFF = 0x04
    ∧ cmdFrame 0x06 = [0x80, 0x60] ∧ cmdFrame 0x04 = [0x80, 0x40]
    ∧ unpackCmd (cmdFrame 0x06) = (0b1000, 0x06, 0)
    ∧ unpackCmd (cmdFrame 0x04) = (0b1000, 0x04, 0)
    ∧ framesOf (frameEvents s (cmdFrame 0x06))
        = (if s.pCsPin then
            [if s.pSpiInterface || (s.pSckPin && s.pMosiPin) then cmdFrame 0x06 else []]
           else [])
    ∧ framesOf (frameEvents s (cmdFrame 0x04))
        = (if s.pCsPin then
            [if s.pSpiInterface || (s.pSckPin && s.pMosiPin) then cmdFrame 0x04 else []]
           else []) := by
  have hon : s.displayOn = s.wrBytes (tCmdSeq.arr { type := MODE_CMD, data := 0x06 }) := rfl
  have hoff : s.displayOff = s.wrBytes (tCmdSeq.arr { type := MODE_CMD, data := 0x04 }) := rfl
  have e6 := (cmdSeq_arr_reverse 0x06 (by decide)).1
  have e4 := (cmdSeq_arr_reverse 0x04 (by decide)).1
  refine ⟨?_, ?_, ?_, ?_, rfl, rfl, by decide, by decide, by decide, by decide, ?_, ?_⟩
  · rw [hon, wrBytes_trace_frame, e6]
  · rw [hoff, wrBytes_trace_frame, e4]
  · rw [hon, wrBytes_frame]
  · rw [hoff, wrBytes_frame]
  · obtain ⟨cs, sck, mosi, bl, spi, buf, tr⟩ := s
    cases cs <;> cases spi <;> cases sck <;> cases mosi <;> rfl
  · obtain ⟨cs, sck, mosi, bl, spi, buf, tr⟩ := s
    cases cs <;> cases spi <;> cases sck <;> cases mosi <;> rfl

theorem strToAscii_eq_index (c : Int) : strToAscii c = ascii[asciiIndex c]? := by
  unfold strToAscii asciiIndex
  split
  · rfl
  · split <;> rfl

theorem asciiIndex_lt (c : Int) (hc : c ≠ 0x60) : asciiIndex c < ascii.length := by
  have hl : ascii.length = 64 := rfl
  unfold asciiIndex
  rw [hl]
  split
  · omega
  · split <;> omega

theorem asciiIndex_lt_witness :
    asciiIndex 0x5F < ascii.length ∧ asciiIndex 0x61 < ascii.length
    ∧ asciiIndex (-1) < ascii.length ∧ asciiIndex 0xFF < ascii.length :=
  ⟨asciiIndex_lt 0x5F (by decide), asciiIndex_lt 0x61 (by decide),
   asciiIndex_lt (-1) (by decide), asciiIndex_lt 0xFF (by decide)⟩

theorem or_lt_128_testBit (x g : Nat) (hg : g < 128) : (x ||| g).testBit 7 = x.testBit 7 := by
  rw [Nat.testBit_or, testBit_7_of_lt g hg, Bool.or_false]

/-- What holds of the glyph masks: every mask `strToAscii` returns from the table is at
most `0x7F`, and OR-ing it into a byte leaves bit 7 of the byte as it was. -/
theorem glyph_mask_keeps_overlay (c : Int) (g x : Nat) (h : strToAscii c = some g) :
    g ≤ 0x7F ∧ g.testBit 7 = false ∧ (x ||| g).testBit 7 = x.testBit 7 := by
  have hc : c ≠ 0x60 := by
    intro h0
    rw [h0, strToAscii_96] at h
    exact absurd h (by simp)
  rw [strToAscii_eq_glyphOf c hc] at h
  have hg : g < 128 := by
    have := glyphOf_lt c
    have e : glyphOf c = g := Option.some.inj h
    omega
  exact ⟨by omega, testBit_7_of_lt g hg, or_lt_128_testBit x g hg⟩

theorem glyph_mask_keeps_overlay_witness :
    (0x47 : Nat) ≤ 0x7F ∧ (0x47 : Nat).testBit 7 = false
    ∧ (0x80 ||| 0x47 : Nat).testBit 7 = (0x80 : Nat).testBit 7 :=
  glyph_mask_keeps_overlay 72 0x47 0x80 (by decide)

/-- C18: the table part of the claim holds (all 64 entries of `ascii` are at most
`0x7F`), but the code misses the part about every character: for `c = 0x60`
`strToAscii` returns `ascii[64]`, a byte outside the table, so the mask OR-ed into the
buffer is not a table entry and nothing keeps its bit 7 clear. -/
theorem glyph_table_bit7_and_escape :
    ascii.length = 64
    ∧ ascii.all (fun g => decide (g ≤ 0x7F)) = true
    ∧ ascii.all (fun g => !g.testBit 7) = true
    ∧ asciiIndex 0x60 = 64
    ∧ ascii[asciiIndex 0x60]? = none
    ∧ strToAscii 0x60 = none := by
  decide

/-- C19: the code misses the claim at `c = 0x60`: neither guard of `strToAscii` fires,
the index `c - ' '` is 64, equal to the length of the 64-entry table, so the lookup
reads one element past the end, and `print` of a string holding that character among
its first six is not safe. -/
theorem strToAscii_index_out_of_bounds :
    ¬ ((0x60 : Int) < 0x20)
    ∧ ¬ ((0x60 : Int) - 0x20 > (ascii.length : Int))
    ∧ ((0x60 : Int) - 0x20).toNat = 64
    ∧ asciiIndex 0x60 = ascii.length
    ∧ ¬ (asciiIndex 0x60 < ascii.length)
    ∧ pinDriver.print_str [65, 0x60] = none
    ∧ spiDriver.print_str [0x60, 65] = none := by
  decide

theorem mask_and_128 (x m : Nat) (hm : m = 0 ∨ m = 128) : (x &&& 127 ||| m) &&& 128 = m := by
  rw [and_128, (mask_or x m hm).2.1]
  rcases hm with h | h <;> subst h <;> simp

theorem glyph_and_127 (x g : Nat) (hg : g < 128) : (x &&& 128 ||| g) &&& 127 = g := by
  rw [show (127 : Nat) = 2 ^ 7 - 1 from rfl, Nat.and_pow_two_sub_one_eq_mod]
  exact or_glyph_mod x g hg

theorem overlay_glyph_commute (x m g : Nat) (hm : m = 0 ∨ m = 128) (hg : g < 128) :
    (x &&& 127 ||| m) &&& 128 ||| g = (x &&& 128 ||| g) &&& 127 ||| m := by
  rw [mask_and_128 x m hm, glyph_and_127 x g hg, Nat.lor_comm]

theorem strlen_le (str : List Int) : strlen str ≤ str.length := by
  unfold strlen
  exact (List.takeWhile_prefix _).length_le

theorem in_table_ne_backquote (str : List Int)
    (hstr : ∀ c, c ∈ str → 0x20 ≤ c ∧ c ≤ 0x5F) :
    ∀ i, i < 6 → i < strlen str → str.getD i 0 ≠ 0x60 := by
  intro i _ hl
  have hlen : i < str.length := Nat.lt_of_lt_of_le hl (strlen_le str)
  rw [List.getD_eq_getElem _ _ hlen]
  have := hstr _ (List.getElem_mem hlen)
  omega

theorem battery_then_glyphs (s : HT1621) (level : tBatteryLevel) (g : Nat → Nat)
    (hg : ∀ j, g j < 128) (b0 b1 b2 : Nat) :
    (HT1621.batteryLevel (HT1621.wrBuffer { s with buffer :=
        [b0 &&& 128 ||| g 0, b1 &&& 128 ||| g 1, b2 &&& 128 ||| g 2, g 3, g 4, g 5] })
      level).buffer
    = [(b0 &&& 127 ||| batteryMask level 0) &&& 128 ||| g 0,
       (b1 &&& 127 ||| batteryMask level 1) &&& 128 ||| g 1,
       (b2 &&& 127 ||| batteryMask level 2) &&& 128 ||| g 2, g 3, g 4, g 5] := by
  rw [batteryLevel_result _ level _ _ _ _ _ _ (wrBuffer_buffer _), wrBuffer_buffer]
  simp only [overlay_glyph_commute _ _ _ (batteryMask_cases level _) (hg _)]

/-- C20: battery level and printed content are independent: for every level, every
string of in-table characters (`0x20..0x5F`), every integer `n` and every prior six-byte
buffer, `batteryLevel` followed by `print` and `print` followed by `batteryLevel` both
return and leave the same final buffer, for `print` of the string and of the integer. -/
theorem battery_print_commute (s : HT1621) (b0 b1 b2 b3 b4 b5 : Nat)
    (hb : s.buffer = [b0, b1, b2, b3, b4, b5]) (level : tBatteryLevel)
    (str : List Int) (hstr : ∀ c, c ∈ str → 0x20 ≤ c ∧ c ≤ 0x5F) (n : Int) :
    (∃ t u, (s.batteryLevel level).print_str str = some t ∧ s.print_str str = some u
      ∧ t.buffer = (u.batteryLevel level).buffer)
    ∧ (∃ t u, (s.batteryLevel level).print_int n = some t ∧ s.print_int n = some u
      ∧ t.buffer = (u.batteryLevel level).buffer) := by
  have hne := in_table_ne_backquote str hstr
  have hbl := batteryLevel_result s level b0 b1 b2 b3 b4 b5 hb
  have hbb : (s.batteryLevel level).buffer
      = [b0 &&& 127 ||| batteryMask level 0, b1 &&& 127 ||| batteryMask level 1,
         b2 &&& 127 ||| batteryMask level 2, b3, b4, b5] := by
    rw [hbl, wrBuffer_buffer]
  constructor
  · refine ⟨_, _, print_str_result (s.batteryLevel level) str _ _ _ _ _ _ hbb hne,
      print_str_result s str b0 b1 b2 b3 b4 b5 hb hne, ?_⟩
    rw [wrBuffer_buffer, battery_then_glyphs s level (strGlyph str) (strGlyph_lt str)
      b0 b1 b2]
  · refine ⟨_, _, print_int_result (s.batteryLevel level) n _ _ _ _ _ _ hbb,
      print_int_result s n b0 b1 b2 b3 b4 b5 hb, ?_⟩
    rw [wrBuffer_buffer, battery_then_glyphs s level (fun j => glyphOf (printedChar n j))
      (fun j => glyphOf_lt _) b0 b1 b2]

theorem battery_print_commute_witness :
    ((∃ t u, (spiDriver.batteryLevel tBatteryLevel.BATTERY_MEDIUM).print_str [72, 69, 76, 76, 79]
          = some t
        ∧ spiDriver.print_str [72, 69, 76, 76, 79] = some u
        ∧ t.buffer = (u.batteryLevel tBatteryLevel.BATTERY_MEDIUM).buffer)
      ∧ (∃ t u, (spiDriver.batteryLevel tBatteryLevel.BATTERY_MEDIUM).print_int (-42) = some t
        ∧ spiDriver.print_int (-42) = some u
        ∧ t.buffer = (u.batteryLevel tBatteryLevel.BATTERY_MEDIUM).buffer))
    ∧ ((spiDriver.batteryLevel tBatteryLevel.BATTERY_MEDIUM).print_str [72, 69, 76, 76, 79]).map
          (fun t => t.buffer)
        = some [0x47, 0x1f ||| 0x80, 0x0d ||| 0x80, 0x0d, 0x4e, 0x00] :=
  ⟨battery_print_commute spiDriver 0x80 0x7D 0x60 0x3e 0xfa 0x63 rfl
    tBatteryLevel.BATTERY_MEDIUM [72, 69, 76, 76, 79] (by decide) (-42), by decide⟩

/-! ## Every call flushes: executions with the undefined reads made explicit -/

theorem strToAsciiAt_eq_index (past : Nat) (c : Int) :
    strToAsciiAt past c = ascii.getD (asciiIndex c) past := by
  unfold strToAsciiAt asciiIndex
  split
  · rfl
  · split <;> rfl

theorem strToAsciiAt_of_some (past : Nat) (c : Int) (g : Nat) (h : strToAscii c = some g) :
    strToAsciiAt past c = g := by
  rw [strToAscii_eq_index] at h
  rw [strToAsciiAt_eq_index, List.getD_eq_getElem?_getD, h]
  rfl

theorem ascii_getD_lt (past k : Nat) (hpast : past < 256) : ascii.getD k past < 256 := by
  by_cases hk : k < 64
  · have h := (ascii_lt_128 k hk).2
    rw [List.getD_eq_getElem?_getD, h]
    have := (ascii_lt_128 k hk).1
    simp only [Option.getD_some]
    omega
  · rw [List.getD_eq_default _ _ (by have : ascii.length = 64 := rfl; omega)]
    exact hpast

theorem strGlyphAt_lt (past : Nat) (hpast : past < 256) (str : List Int) (i : Nat) :
    strGlyphAt past str i < 256 := by
  unfold strGlyphAt
  split
  · rw [strToAsciiAt_eq_index]
    exact ascii_getD_lt past _ hpast
  · exact ascii_getD_lt past _ hpast

theorem and_128_or_byte_lt (x g : Nat) (hg : g < 256) : x &&& 128 ||| g < 256 := by
  have hx : x &&& 128 < 2 ^ 8 := Nat.lt_of_le_of_lt Nat.and_le_right (by decide)
  exact Nat.or_lt_two_pow hx hg

theorem print_str_at_eq (past : Nat) (s : HT1621) (str : List Int) :
    s.print_str_at past str = (HT1621.forLoop (HT1621.printStrBodyAt past str) 6 0
      s.dotsBufferClear.lettersBufferClear).map HT1621.wrBuffer := rfl

theorem print_str_at_result (past : Nat) (s : HT1621) (str : List Int)
    (b0 b1 b2 b3 b4 b5 : Nat) (hb : s.buffer = [b0, b1, b2, b3, b4, b5]) :
    s.print_str_at past str = some (HT1621.wrBuffer { s with buffer :=
      [b0 &&& 128 ||| strGlyphAt past str 0, b1 &&& 128 ||| strGlyphAt past str 1,
       b2 &&& 128 ||| strGlyphAt past str 2, strGlyphAt past str 3, strGlyphAt past str 4,
       strGlyphAt past str 5] }) := by
  have hbody : ∀ i t, i < 6 → HT1621.printStrBodyAt past str i t
      = some (t.setBuf i (t.buf i ||| strGlyphAt past str i)) := by
    intro i t _
    unfold HT1621.printStrBodyAt strGlyphAt
    split <;> rfl
  rw [print_str_at_eq, clears_buffer s b0 b1 b2 b3 b4 b5 hb,
    forLoop_or _ _ hbody _ (b0 &&& 128) (b1 &&& 128) (b2 &&& 128) 0 0 0 rfl]
  simp

theorem forLoop_agree (body body2 : Nat → HT1621 → Option HT1621)
    (h : ∀ i t u, body i t = some u → body2 i t = some u) :
    ∀ n i t r, HT1621.forLoop body n i t = some r → HT1621.forLoop body2 n i t = some r := by
  intro n
  induction n with
  | zero => intro i t r hr; exact hr
  | succ m ih =>
    intro i t r hr
    simp only [HT1621.forLoop] at hr ⊢
    cases hb : body i t with
    | none => rw [hb] at hr; simp at hr
    | some u =>
      rw [hb, Option.some_bind] at hr
      rw [h i t u hb, Option.some_bind]
      exact ih (i + 1) u r hr

theorem print_str_at_of_some (past : Nat) (s : HT1621) (str : List Int) (t : HT1621)
    (h : s.print_str str = some t) : s.print_str_at past str = some t := by
  have hbody : ∀ i t u, HT1621.printStrBody str i t = some u
      → HT1621.printStrBodyAt past str i t = some u := by
    intro i t u hu
    unfold HT1621.printStrBody at hu
    unfold HT1621.printStrBodyAt
    split at hu
    · next hl =>
      rw [if_pos hl]
      cases hg : strToAscii (str.getD i 0) with
      | none => rw [hg] at hu; simp at hu
      | some g =>
        rw [hg] at hu
        rw [strToAsciiAt_of_some past _ g hg]
        exact hu
    · next hl =>
      rw [if_neg hl]
      exact hu
  rw [print_str_eq] at h
  rw [print_str_at_eq]
  cases hf : HT1621.forLoop (HT1621.printStrBody str) 6 0 s.dotsBufferClear.lettersBufferClear with
  | none => rw [hf] at h; simp at h
  | some r =>
    rw [hf] at h
    rw [forLoop_agree _ _ hbody 6 0 _ r hf]
    exact h

theorem clampPrecision_eq (num : CFloat) (p : Nat) :
    (if (num.geZero = true) ∧ p > MAX_POSITIVE_PRECISION then MAX_POSITIVE_PRECISION
      else if (num.ltZero = true) ∧ p > MAX_NEGATIVE_PRECISION then MAX_NEGATIVE_PRECISION
      else p) = clampPrecision num p := by
  unfold clampPrecision MAX_POSITIVE_PRECISION MAX_NEGATIVE_PRECISION
  have hx : num.geZero = true → num.ltZero = false := by
    cases num with
    | finite m e => simp [CFloat.geZero, CFloat.ltZero]
    | inf negative => cases negative <;> simp [CFloat.geZero, CFloat.ltZero]
    | nan => simp [CFloat.geZero]
  cases hg : num.geZero <;> cases hl : num.ltZero
  · simp
  · simp [Nat.min_def]; split_ifs <;> omega
  · simp [Nat.min_def]; split_ifs <;> omega
  · exact absurd (hx hg) (by simp [hl])

theorem print_float_at_eq (conv : Int) (s : HT1621) (num : CFloat) (p : Nat) :
    s.print_float_at conv num p
      = (s.lettersBufferClear.print_int
          (clampNum ((num.scaleToInt32 (clampPrecision num p)).getD conv))).map fun t =>
        (t.decimalSeparator (clampPrecision num p)).wrBuffer := by
  unfold HT1621.print_float_at
  simp only [clampPrecision_eq, clampNum_eq]

theorem print_float_at_of_some (conv : Int) (s : HT1621) (num : CFloat) (p : Nat)
    (t : HT1621) (h : s.print_float num p = some t) : s.print_float_at conv num p = some t := by
  rw [print_float_eq] at h
  rw [print_float_at_eq]
  cases hk : num.scaleToInt32 (clampPrecision num p) with
  | none => rw [hk] at h; simp at h
  | some k =>
    rw [hk, Option.some_bind] at h
    rw [Option.getD_some]
    exact h

theorem print_float_at_result (conv : Int) (s : HT1621) (b0 b1 b2 b3 b4 b5 : Nat)
    (hb : s.buffer = [b0, b1, b2, b3, b4, b5]) (num : CFloat) (p : Nat) :
    s.print_float_at conv num p = some (HT1621.wrBuffer (HT1621.decimalSeparator
      (HT1621.wrBuffer { s with buffer :=
        [b0 &&& 128
           ||| glyphOf (printedChar ((num.scaleToInt32 (clampPrecision num p)).getD conv) 0),
         b1 &&& 128
           ||| glyphOf (printedChar ((num.scaleToInt32 (clampPrecision num p)).getD conv) 1),
         b2 &&& 128
           ||| glyphOf (printedChar ((num.scaleToInt32 (clampPrecision num p)).getD conv) 2),
         glyphOf (printedChar ((num.scaleToInt32 (clampPrecision num p)).getD conv) 3),
         glyphOf (printedChar ((num.scaleToInt32 (clampPrecision num p)).getD conv) 4),
         glyphOf (printedChar ((num.scaleToInt32 (clampPrecision num p)).getD conv) 5)] })
      (clampPrecision num p))) := by
  have hl := lettersBufferClear_eq s b0 b1 b2 b3 b4 b5 hb
  have hv := print_int_result { s with buffer :=
      [b0 &&& 128, b1 &&& 128, b2 &&& 128, b3 &&& 128, b4 &&& 128, b5 &&& 128] }
    (clampNum ((num.scaleToInt32 (clampPrecision num p)).getD conv))
    (b0 &&& 128) (b1 &&& 128) (b2 &&& 128) (b3 &&& 128) (b4 &&& 128) (b5 &&& 128) rfl
  simp only [printedChar_clampNum, and_128_idem] at hv
  rw [print_float_at_eq, hl, hv]
  rfl

/-- C15: every call of a mutating public operation (`print` of a string, of an integer,
of a float with precision, `batteryLevel`, `clear`), from any prior state with a
six-byte buffer, returns with a trace whose last events are the transmission of the
data frame that encodes the whole final buffer from address 0, and decoding that frame
gives the final buffer. For the two calls C++ leaves undefined on some arguments the
execution is taken with the undefined value explicit and arbitrary: `past`, the byte
read at `ascii[64]`, and `conv`, the result of an out-of-range conversion to `int32_t`;
where `print_str` and `print_float` are defined they are these executions. -/
theorem every_call_flushes (s : HT1621) (b0 b1 b2 b3 b4 b5 : Nat)
    (hb : s.buffer = [b0, b1, b2, b3, b4, b5])
    (h3 : b3 < 256) (h4 : b4 < 256) (h5 : b5 < 256)
    (past : Nat) (hpast : past < 256) (conv : Int)
    (str : List Int) (n : Int) (num : CFloat) (p : Nat) (level : tBatteryLevel) :
    (∃ t pre, s.print_str_at past str = some t
      ∧ t.trace = s.trace ++ pre ++ frameEvents t (dataFrame t.buffer)
      ∧ frameBuffer (dataFrame t.buffer) = t.buffer)
    ∧ (∀ t, s.print_str str = some t → s.print_str_at past str = some t)
    ∧ (∃ t pre, s.print_int n = some t
      ∧ t.trace = s.trace ++ pre ++ frameEvents t (dataFrame t.buffer)
      ∧ frameBuffer (dataFrame t.buffer) = t.buffer)
    ∧ (∃ t pre, s.print_float_at conv num p = some t
      ∧ t.trace = s.trace ++ pre ++ frameEvents t (dataFrame t.buffer)
      ∧ frameBuffer (dataFrame t.buffer) = t.buffer)
    ∧ (∀ t, s.print_float num p = some t → s.print_float_at conv num p = some t)
    ∧ (∃ pre, (s.batteryLevel level).trace
        = s.trace ++ pre ++ frameEvents (s.batteryLevel level)
            (dataFrame (s.batteryLevel level).buffer)
      ∧ frameBuffer (dataFrame (s.batteryLevel level).buffer) = (s.batteryLevel level).buffer)
    ∧ (∃ pre, s.clear.trace = s.trace ++ pre ++ frameEvents s.clear (dataFrame s.clear.buffer)
      ∧ frameBuffer (dataFrame s.clear.buffer) = s.clear.buffer) := by
  have gs := fun j => strGlyphAt_lt past hpast str j
  have gi := fun j => glyphOf_lt (printedChar n j)
  have gk := fun j => glyphOf_lt
    (printedChar ((num.scaleToInt32 (clampPrecision num p)).getD conv) j)
  refine ⟨?_, fun t h => print_str_at_of_some past s str t h, ?_, ?_,
    fun t h => print_float_at_of_some conv s num p t h, ?_, ?_⟩
  · refine ⟨_, [], print_str_at_result past s str b0 b1 b2 b3 b4 b5 hb, ?_⟩
    exact flush_of_wrBuffer s _ [] _ _ _ _ _ _ rfl (and_128_or_byte_lt _ _ (gs 0))
      (and_128_or_byte_lt _ _ (gs 1)) (and_128_or_byte_lt _ _ (gs 2)) (gs 3) (gs 4) (gs 5)
      (by simp)
  · refine ⟨_, [], print_int_result s n b0 b1 b2 b3 b4 b5 hb, ?_⟩
    exact flush_of_wrBuffer s _ [] _ _ _ _ _ _ rfl (and_128_or_lt _ _ (gi 0))
      (and_128_or_lt _ _ (gi 1)) (and_128_or_lt _ _ (gi 2)) (by have := gi 3; omega)
      (by have := gi 4; omega) (by have := gi 5; omega) (by simp)
  · have hd := decimalSeparator_result (HT1621.wrBuffer { s with buffer :=
        [b0 &&& 128
           ||| glyphOf (printedChar ((num.scaleToInt32 (clampPrecision num p)).getD conv) 0),
         b1 &&& 128
           ||| glyphOf (printedChar ((num.scaleToInt32 (clampPrecision num p)).getD conv) 1),
         b2 &&& 128
           ||| glyphOf (printedChar ((num.scaleToInt32 (clampPrecision num p)).getD conv) 2),
         glyphOf (printedChar ((num.scaleToInt32 (clampPrecision num p)).getD conv) 3),
         glyphOf (printedChar ((num.scaleToInt32 (clampPrecision num p)).getD conv) 4),
         glyphOf (printedChar ((num.scaleToInt32 (clampPrecision num p)).getD conv) 5)] })
      (clampPrecision num p) _ _ _ _ _ _ (wrBuffer_buffer _)
    have ht := wrBuffer_trace_frame { s with buffer :=
        [b0 &&& 128
           ||| glyphOf (printedChar ((num.scaleToInt32 (clampPrecision num p)).getD conv) 0),
         b1 &&& 128
           ||| glyphOf (printedChar ((num.scaleToInt32 (clampPrecision num p)).getD conv) 1),
         b2 &&& 128
           ||| glyphOf (printedChar ((num.scaleToInt32 (clampPrecision num p)).getD conv) 2),
         glyphOf (printedChar ((num.scaleToInt32 (clampPrecision num p)).getD conv) 3),
         glyphOf (printedChar ((num.scaleToInt32 (clampPrecision num p)).getD conv) 4),
         glyphOf (printedChar ((num.scaleToInt32 (clampPrecision num p)).getD conv) 5)] }
      _ _ _ _ _ _ rfl (and_128_or_lt _ _ (gk 0))
      (and_128_or_lt _ _ (gk 1)) (and_128_or_lt _ _ (gk 2)) (by have := gk 3; omega)
      (by have := gk 4; omega) (by have := gk 5; omega)
    have hfl := flush_of_wrBuffer s _ _ _ _ _ _ _ _ (congrArg HT1621.buffer hd)
      (and_128_or_lt _ _ (gk 0)) (and_128_or_lt _ _ (gk 1)) (and_128_or_lt _ _ (gk 2))
      (mask_or _ _ (dotMask_cases _ 3)).2.2 (mask_or _ _ (dotMask_cases _ 4)).2.2
      (mask_or _ _ (dotMask_cases _ 5)).2.2 ((congrArg HT1621.trace hd).trans ht)
    exact ⟨_, _, print_float_at_result conv s b0 b1 b2 b3 b4 b5 hb num p, hfl⟩
  · rw [batteryLevel_result s level b0 b1 b2 b3 b4 b5 hb]
    exact ⟨[], flush_of_wrBuffer s _ [] _ _ _ _ _ _ rfl
      (mask_or _ _ (batteryMask_cases _ 0)).2.2 (mask_or _ _ (batteryMask_cases _ 1)).2.2
      (mask_or _ _ (batteryMask_cases _ 2)).2.2 h3 h4 h5 (by simp)⟩
  · rw [clear_result s b0 b1 b2 b3 b4 b5 hb]
    exact ⟨[], flush_of_wrBuffer s _ [] _ _ _ _ _ _ rfl (by decide) (by decide) (by decide)
      (by decide) (by decide) (by decide) (by simp)⟩

theorem every_call_flushes_witness :
    ((∃ t pre, spiDriver.print_str_at 0x80 [72, 0x60] = some t
      ∧ t.trace = spiDriver.trace ++ pre ++ frameEvents t (dataFrame t.buffer)
      ∧ frameBuffer (dataFrame t.buffer) = t.buffer)
    ∧ (∀ t, spiDriver.print_str [72, 0x60] = some t
        → spiDriver.print_str_at 0x80 [72, 0x60] = some t)
    ∧ (∃ t pre, spiDriver.print_int (-42) = some t
      ∧ t.trace = spiDriver.trace ++ pre ++ frameEvents t (dataFrame t.buffer)
      ∧ frameBuffer (dataFrame t.buffer) = t.buffer)
    ∧ (∃ t pre, spiDriver.print_float_at (-2147483648) (CFloat.finite 1 31) 0 = some t
      ∧ t.trace = spiDriver.trace ++ pre ++ frameEvents t (dataFrame t.buffer)
      ∧ frameBuffer (dataFrame t.buffer) = t.buffer)
    ∧ (∀ t, spiDriver.print_float (CFloat.finite 1 31) 0 = some t
        → spiDriver.print_float_at (-2147483648) (CFloat.finite 1 31) 0 = some t)
    ∧ (∃ pre, (spiDriver.batteryLevel tBatteryLevel.BATTERY_LOW).trace
        = spiDriver.trace ++ pre ++ frameEvents (spiDriver.batteryLevel tBatteryLevel.BATTERY_LOW)
            (dataFrame (spiDriver.batteryLevel tBatteryLevel.BATTERY_LOW).buffer)
      ∧ frameBuffer (dataFrame (spiDriver.batteryLevel tBatteryLevel.BATTERY_LOW).buffer)
        = (spiDriver.batteryLevel tBatteryLevel.BATTERY_LOW).buffer)
    ∧ (∃ pre, spiDriver.clear.trace
        = spiDriver.trace ++ pre ++ frameEvents spiDriver.clear (dataFrame spiDriver.clear.buffer)
      ∧ frameBuffer (dataFrame spiDriver.clear.buffer) = spiDriver.clear.buffer))
    ∧ (spiDriver.print_str_at 0x80 [72, 0x60]).map (fun t => t.buffer)
        = some [0xc7, 0x80, 0x00, 0x00, 0x00, 0x00]
    ∧ (spiDriver.print_str_at 0x80 [72, 0x60]).map (fun t => t.trace)
        = some [Event.cs false, Event.spi (dataFrame [0xc7, 0x80, 0x00, 0x00, 0x00, 0x00]),
            Event.cs true]
    ∧ (spiDriver.print_float_at (-2147483648) (CFloat.finite 1 31) 0).map (fun t => t.buffer)
        = (spiDriver.print_int (-99999)).map (fun t => t.buffer) :=
  ⟨every_call_flushes spiDriver 0x80 0x7D 0x60 0x3e 0xfa 0x63 rfl (by decide) (by decide)
    (by decide) 0x80 (by decide) (-2147483648) [72, 0x60] (-42) (CFloat.finite 1 31) 0
    tBatteryLevel.BATTERY_LOW, by decide, by decide, by decide⟩
